import Mathlib

/-!
# cloudflare-ddns: a shallow embedding of `main.go`

The program is a straight line of HTTP calls.  It is embedded as pure functions that
thread an explicit event trace (the requests handed to `client.Do`, and the log lines)
and consult a `World` for what the network answers.

* Go `string` / `[]byte` values are byte sequences: `GoString := List Nat`.
* Go string literals are written `lit "..."` (their UTF-8 bytes).
* A Go function that can panic returns an `Outcome`.
* The source discards the error of `http.NewRequest` (`req, _ := ...`).  When the URL
  text is rejected the request is nil and its next use is a nil pointer dereference:
  `HttpResult.invalid` and `Panic.nilDereference`.
* Loops whose index advances by a computed width (`bytes.indexFunc`,
  `bytes.lastIndexFunc`) carry a fuel argument that is set to `len(s) + 1`; the facts
  below show that it never runs out.
* The standard-library functions the program calls
  (`bytes.TrimSpace`, `unicode.IsSpace`, `utf8.DecodeRune`, `utf8.DecodeLastRune`,
  `utf8.EncodeRune`, `flag.String`/`flag.Bool`, `fmt` verbs `%d %s %t`) are embedded
  from the Go standard library.
-/

namespace CloudflareDDNS

/-! ## Go strings -/

/-- Go `string` and `[]byte`: a sequence of bytes. -/
abbrev GoString := List Nat

/-! Go `rune` values are code points; the decoders only produce non-negative values, so
runes are natural numbers. -/

def RuneError : Nat := 0xFFFD
def RuneSelf : Nat := 0x80
def MaxRune : Nat := 0x10FFFF
def UTFMax : Nat := 4
def surrogateMin : Nat := 0xD800
def surrogateMax : Nat := 0xDFFF

def t2 : Nat := 0xC0
def t3 : Nat := 0xE0
def t4 : Nat := 0xF0
def tx : Nat := 0x80
def maskx : Nat := 0x3F
def mask2 : Nat := 0x1F
def mask3 : Nat := 0x0F
def mask4 : Nat := 0x07
def rune1Max : Nat := 0x7F
def rune2Max : Nat := 0x7FF
def rune3Max : Nat := 0xFFFF
def locb : Nat := 0x80
def hicb : Nat := 0xBF

/-- Conversion `byte(x)` of a non-negative integer: the low eight bits. -/
def byte (x : Nat) : Nat := x % 256

/-- Go `utf8.EncodeRune`, returning the bytes written. -/
def EncodeRune (r : Nat) : GoString :=
  if r ≤ rune1Max then [byte r]
  else if r ≤ rune2Max then [t2 ||| byte (r >>> 6), tx ||| (byte r &&& maskx)]
  else if r > MaxRune ∨ (surrogateMin ≤ r ∧ r ≤ surrogateMax) then
    [t3 ||| byte (RuneError >>> 12), tx ||| (byte (RuneError >>> 6) &&& maskx),
      tx ||| (byte RuneError &&& maskx)]
  else if r ≤ rune3Max then
    [t3 ||| byte (r >>> 12), tx ||| (byte (r >>> 6) &&& maskx), tx ||| (byte r &&& maskx)]
  else
    [t4 ||| byte (r >>> 18), tx ||| (byte (r >>> 12) &&& maskx),
      tx ||| (byte (r >>> 6) &&& maskx), tx ||| (byte r &&& maskx)]

/-- The UTF-8 bytes of a sequence of runes. -/
def encodeRunes (rs : List Nat) : GoString := rs.flatMap EncodeRune

/-- A Go string literal: the UTF-8 encoding of its characters. -/
def lit (s : String) : GoString := encodeRunes (s.toList.map Char.toNat)

/-! ## Command line flags and environment (`flag.String`, `flag.Bool`, `os.Getenv`) -/

/-- What the command line supplies: `none` when a flag is not given. -/
structure Args where
  key : Option GoString
  email : Option GoString
  domain : Option GoString
  subdomain : Option GoString
  v6 : Option Bool
  v4 : Option Bool
  externalSource : Option GoString
  externalSourceSSL : Option Bool

/-- A flag after `flag.Parse()`: the supplied value, else the declared default. -/
def flagValue {α : Type} (supplied : Option α) (dflt : α) : α :=
  match supplied with
  | some v => v
  | none => dflt

/-- The package-level flag variables of `main.go` (lines 21-28) after `flag.Parse()`. -/
structure Flags where
  key : GoString
  email : GoString
  domain : GoString
  subDomain : GoString
  v6 : Bool
  v4 : Bool
  externalAddressSource : GoString
  externalSourceUseSSL : Bool

/-- The flag declarations of lines 21-28 with their defaults. -/
def parseFlags (a : Args) : Flags where
  key := flagValue a.key (lit "")
  email := flagValue a.email (lit "")
  domain := flagValue a.domain (lit "")
  subDomain := flagValue a.subdomain (lit "@")
  v6 := flagValue a.v6 true
  v4 := flagValue a.v4 true
  externalAddressSource := flagValue a.externalSource (lit "ifcfg.org")
  externalSourceUseSSL := flagValue a.externalSourceSSL true

/-- The process environment: `os.Getenv` (the empty string for an unset variable). -/
abbrev Environ := GoString → GoString

/-- The package-level variables `finalKey`, `finalEmail`, `finalDomain`, `finalSubdomain`. -/
structure Final where
  finalKey : GoString
  finalEmail : GoString
  finalDomain : GoString
  finalSubdomain : GoString

/-- One setting of `main` (e.g. lines 83-86): read the environment variable, then
overwrite it with the flag when the flag is not the empty string. -/
def resolveSetting (flagVal : GoString) (envVal : GoString) : GoString :=
  let final := envVal
  if flagVal ≠ lit "" then flagVal else final

/-- Lines 83-101 of `main`. -/
def resolveFinal (f : Flags) (getenv : Environ) : Final where
  finalKey := resolveSetting f.key (getenv (lit "CLOUDFLARE_DDNS_KEY"))
  finalEmail := resolveSetting f.email (getenv (lit "CLOUDFLARE_DDNS_EMAIL"))
  finalDomain := resolveSetting f.domain (getenv (lit "CLOUDFLARE_DDNS_DOMAIN"))
  finalSubdomain := resolveSetting f.subDomain (getenv (lit "CLOUDFLARE_DDNS_SUBDOMAIN"))

/-! ## `unicode/utf8` and `unicode.IsSpace` -/

/-- Byte classes of the table `first` in `unicode/utf8`. -/
def xx : Nat := 0xF1
def as : Nat := 0xF0
def s1 : Nat := 0x02
def s2 : Nat := 0x13
def s3 : Nat := 0x03
def s4 : Nat := 0x23
def s5 : Nat := 0x34
def s6 : Nat := 0x04
def s7 : Nat := 0x44

/-- The table `first` of `unicode/utf8`, row by row: 0x00-0x7F `as`; 0x80-0xC1 `xx`;
0xC2-0xDF `s1`; 0xE0 `s2`; 0xE1-0xEC `s3`; 0xED `s4`; 0xEE-0xEF `s3`; 0xF0 `s5`;
0xF1-0xF3 `s6`; 0xF4 `s7`; 0xF5-0xFF `xx`. -/
def first (b : Nat) : Nat :=
  if b < 0x80 then as
  else if b < 0xC2 then xx
  else if b < 0xE0 then s1
  else if b = 0xE0 then s2
  else if b < 0xED then s3
  else if b = 0xED then s4
  else if b < 0xF0 then s3
  else if b = 0xF0 then s5
  else if b < 0xF4 then s6
  else if b = 0xF4 then s7
  else xx

/-- An entry `{lo, hi}` of `acceptRanges`. -/
structure acceptRange where
  lo : Nat
  hi : Nat

/-- The table `acceptRanges` of `unicode/utf8` (unlisted entries are zero). -/
def acceptRanges (i : Nat) : acceptRange :=
  if i = 0 then ⟨locb, hicb⟩
  else if i = 1 then ⟨0xA0, hicb⟩
  else if i = 2 then ⟨locb, 0x9F⟩
  else if i = 3 then ⟨0x90, hicb⟩
  else if i = 4 then ⟨locb, 0x8F⟩
  else ⟨0, 0⟩

/-- Go `utf8.DecodeRune`: the first rune of `p` and its width in bytes. -/
def DecodeRune (p : GoString) : Nat × Nat :=
  let n := p.length
  match p with
  | [] => (RuneError, 0)
  | p0 :: rest0 =>
    let x := first p0
    if x ≥ as then
      -- mask := rune(x) << 31 >> 31 is all ones exactly when bit 0 of x is set (x = xx)
      (if x % 2 = 1 then RuneError else p0, 1)
    else
      let sz := x &&& 7
      let accept := acceptRanges (x >>> 4)
      if n < sz then (RuneError, 1)
      else
        match rest0 with
        | [] => (RuneError, 1)
        | b1 :: rest1 =>
          if b1 < accept.lo ∨ accept.hi < b1 then (RuneError, 1)
          else if sz ≤ 2 then ((p0 &&& mask2) <<< 6 ||| (b1 &&& maskx), 2)
          else
            match rest1 with
            | [] => (RuneError, 1)
            | b2 :: rest2 =>
              if b2 < locb ∨ hicb < b2 then (RuneError, 1)
              else if sz ≤ 3 then
                ((p0 &&& mask3) <<< 12 ||| (b1 &&& maskx) <<< 6 ||| (b2 &&& maskx), 3)
              else
                match rest2 with
                | [] => (RuneError, 1)
                | b3 :: _ =>
                  if b3 < locb ∨ hicb < b3 then (RuneError, 1)
                  else
                    ((p0 &&& mask4) <<< 18 ||| (b1 &&& maskx) <<< 12 ||| (b2 &&& maskx) <<< 6
                      ||| (b3 &&& maskx), 4)

/-- Go `utf8.RuneStart`: the byte is not a continuation byte. -/
def RuneStart (b : Nat) : Bool := b &&& 0xC0 != 0x80

/-- The loop `for start--; start >= lim; start-- { if RuneStart(p[start]) { break } }`
of `utf8.DecodeLastRune`, followed by `if start < 0 { start = 0 }`.  The argument is
the value of `start` before the decrement. -/
def backToRuneStart (p : GoString) (lim : Nat) : Nat → Nat
  | 0 => 0
  | start + 1 =>
    if start ≥ lim then
      if RuneStart (p.getD start 0) then start else backToRuneStart p lim start
    else start

/-- Go `utf8.DecodeLastRune`: the last rune of `p` and its width in bytes. -/
def DecodeLastRune (p : GoString) : Nat × Nat :=
  let end_ := p.length
  if end_ = 0 then (RuneError, 0)
  else
    let start := end_ - 1
    let r := p.getD start 0
    if r < RuneSelf then (r, 1)
    else
      -- lim := end - UTFMax; if lim < 0 { lim = 0 }
      let lim := end_ - UTFMax
      let start := backToRuneStart p lim start
      let (r, size) := DecodeRune (p.drop start)
      if start + size ≠ end_ then (RuneError, 1) else (r, size)

/-- Go `unicode.IsSpace`: the Latin-1 switch, and beyond Latin-1 the `White_Space`
range table (U+1680, U+2000-U+200A, U+2028, U+2029, U+202F, U+205F, U+3000). -/
def IsSpace (r : Nat) : Bool :=
  if r ≤ 0xFF then
    r = 0x09 ∨ r = 0x0A ∨ r = 0x0B ∨ r = 0x0C ∨ r = 0x0D ∨ r = 0x20 ∨ r = 0x85 ∨ r = 0xA0
  else
    r = 0x1680 ∨ (0x2000 ≤ r ∧ r ≤ 0x200A) ∨ r = 0x2028 ∨ r = 0x2029 ∨ r = 0x202F
      ∨ r = 0x205F ∨ r = 0x3000

/-! ## `bytes.TrimSpace` -/

/-- The loop of `bytes.indexFunc`, from index `start`; every round advances `start`,
so `fuel = len(s)` rounds always suffice. -/
def indexFuncLoop (s : GoString) (f : Nat → Bool) (truth : Bool) : Nat → Nat → Int
  | 0, _ => -1
  | fuel + 1, start =>
    if start < s.length then
      let c := s.getD start 0
      let (r, wid) := if c ≥ RuneSelf then DecodeRune (s.drop start) else (c, 1)
      if f r == truth then (start : Int)
      else indexFuncLoop s f truth fuel (start + wid)
    else -1

/-- Go `bytes.indexFunc`: index of the first rune `r` with `f(r) == truth`, or -1. -/
def indexFunc (s : GoString) (f : Nat → Bool) (truth : Bool) : Int :=
  indexFuncLoop s f truth (s.length + 1) 0

/-- The loop of `bytes.lastIndexFunc`, from index `i`. -/
def lastIndexFuncLoop (s : GoString) (f : Nat → Bool) (truth : Bool) : Nat → Nat → Int
  | 0, _ => -1
  | fuel + 1, i =>
    if i > 0 then
      let c := s.getD (i - 1) 0
      let (r, size) := if c ≥ RuneSelf then DecodeLastRune (s.take i) else (c, 1)
      let i := i - size
      if f r == truth then (i : Int)
      else lastIndexFuncLoop s f truth fuel i
    else -1

/-- Go `bytes.lastIndexFunc`: start index of the last rune `r` with `f(r) == truth`,
or -1. -/
def lastIndexFunc (s : GoString) (f : Nat → Bool) (truth : Bool) : Int :=
  lastIndexFuncLoop s f truth (s.length + 1) s.length

/-- Go `bytes.TrimLeftFunc`. -/
def TrimLeftFunc (s : GoString) (f : Nat → Bool) : GoString :=
  let i := indexFunc s f false
  if i = -1 then [] else s.drop i.toNat

/-- Go `bytes.TrimRightFunc`. -/
def TrimRightFunc (s : GoString) (f : Nat → Bool) : GoString :=
  let i := lastIndexFunc s f false
  let i : Int :=
    if i ≥ 0 ∧ s.getD i.toNat 0 ≥ RuneSelf then i + ((DecodeRune (s.drop i.toNat)).2 : Int)
    else i + 1
  s.take i.toNat

/-- Go `bytes.TrimFunc`. -/
def TrimFunc (s : GoString) (f : Nat → Bool) : GoString :=
  TrimRightFunc (TrimLeftFunc s f) f

/-- The table `asciiSpace` of package `bytes`. -/
def asciiSpace (c : Nat) : Nat :=
  if c = 0x09 ∨ c = 0x0A ∨ c = 0x0B ∨ c = 0x0C ∨ c = 0x0D ∨ c = 0x20 then 1 else 0

/-- The second loop of `bytes.TrimSpace` on `t = s[start:]`; the argument is `stop`
counted from `start`. -/
def trimSpaceStop (t : GoString) : Nat → GoString
  | 0 => []
  | stop + 1 =>
    let c := t.getD stop 0
    if c ≥ RuneSelf then TrimFunc (t.take (stop + 1)) IsSpace
    else if asciiSpace c = 0 then t.take (stop + 1)
    else trimSpaceStop t stop

/-- The first loop of `bytes.TrimSpace` on `s[start:]`, then the rest of the function. -/
def trimSpaceStart : GoString → GoString
  | [] => trimSpaceStop [] 0
  | c :: cs =>
    if c ≥ RuneSelf then TrimFunc (c :: cs) IsSpace
    else if asciiSpace c = 0 then trimSpaceStop (c :: cs) (c :: cs).length
    else trimSpaceStart cs

/-- Go `bytes.TrimSpace`: an ASCII fast path from both ends, falling back to
`TrimFunc(_, unicode.IsSpace)` at the first non-ASCII byte. -/
def TrimSpace (s : GoString) : GoString := trimSpaceStart s

/-! ## The provider's JSON envelopes (lines 36-73) -/

/-- The struct `Zone`. -/
structure Zone where
  ID : GoString
  Name : GoString
deriving DecidableEq

/-- The struct `Error`; `Code` is a Go `int`. -/
structure Error where
  Code : Int
  Message : GoString
deriving DecidableEq

/-- The struct `ZoneList`. -/
structure ZoneList where
  Success : Bool
  Errors : List Error
  Messages : List GoString
  Result : List Zone
deriving DecidableEq

/-- The struct `Record`. -/
structure Record where
  ID : GoString
  /-- The field `Type` (a reserved word here). -/
  Type_ : GoString
  Name : GoString
  Content : GoString
  Locked : Bool
  ZoneID : GoString
  ZoneNames : GoString
deriving DecidableEq

/-- The struct `RecordList`. -/
structure RecordList where
  Success : Bool
  Errors : List Error
  Messages : List GoString
  Result : List Record
deriving DecidableEq

/-- The zero value `ZoneList{}`, which `json.Unmarshal` leaves untouched when the body
is not valid JSON. -/
def ZoneList.zero : ZoneList := ⟨false, [], [], []⟩

/-- The zero value `RecordList{}`. -/
def RecordList.zero : RecordList := ⟨false, [], [], []⟩

/-! ## Errors, panics, formatting -/

/-- A Go `error` value: one handed back by `net/http` or `io`, or one made by
`fmt.Errorf`. -/
inductive GoError where
  | lib (msg : GoString)
  | errorf (msg : GoString)
deriving DecidableEq

/-- The method `Error()`: the text of the error. -/
def GoError.Error : GoError → GoString
  | .lib msg => msg
  | .errorf msg => msg

/-- How a goroutine can die. -/
inductive Panic where
  /-- `panic(err)` in `GetV4Address` / `GetV6Address`. -/
  | error (err : GoError)
  /-- Runtime error: index out of range. -/
  | indexOutOfRange
  /-- Runtime error: invalid memory address or nil pointer dereference. -/
  | nilDereference
deriving DecidableEq

/-- The result of running a Go function: it returns a value or panics. -/
inductive Outcome (α : Type) where
  | ret (v : α)
  | panic (p : Panic)
deriving DecidableEq

/-- The verb `%d` on a Go `int`: an optional minus sign and the decimal digits. -/
def fmtD (n : Int) : GoString :=
  if n < 0 then lit "-" ++ (Nat.toDigits 10 n.natAbs).map Char.toNat
  else (Nat.toDigits 10 n.toNat).map Char.toNat

/-- The verb `%t` on a `bool`. -/
def fmtT (b : Bool) : GoString := if b then lit "true" else lit "false"

/-- The call `fmt.Errorf("%d: %s", code, message)`. -/
def Errorf (code : Int) (message : GoString) : GoError :=
  .errorf (fmtD code ++ lit ": " ++ message)

/-! ## The outside world: HTTP and JSON -/

/-- What the source hands to `http.NewRequest` and `req.Header.Add`: the method, the URL
text, the headers added and the body.  The field `url` is the text as concatenated by
the source; how `net/url` splits it into path, query and fragment is not modelled. -/
structure Request where
  method : GoString
  url : GoString
  header : List (GoString × GoString)
  body : Option GoString
deriving DecidableEq

/-- Levels of the logger. -/
inductive Level where
  | info
  | error
deriving DecidableEq

/-- What the program does to the outside, in order. -/
inductive Event where
  /-- A request that `http.NewRequest` built and that was handed to `client.Do`. -/
  | http (req : Request)
  /-- A line handed to the logger. -/
  | log (level : Level) (msg : GoString)
deriving DecidableEq

/-- What `http.NewRequest`, `client.Do(req)` and `ioutil.ReadAll(resp.Body)` give. -/
inductive HttpResult where
  /-- The call `http.NewRequest` rejected the URL text and returned a nil request.  The
  source discards that error (`req, _ := ...`), so the next use of `req` is a nil pointer
  dereference and nothing is sent. -/
  | invalid
  /-- The call `client.Do` returned a non-nil error. -/
  | failed (err : GoError)
  /-- A response arrived; `body` is what `ReadAll` read and `readErr` its error. -/
  | response (body : GoString) (readErr : Option GoError)
deriving DecidableEq

/-- The environment of a run: what becomes of a request given everything that happened
before (whether `http.NewRequest` accepts it, and the network's answer), and
`json.Unmarshal` into a zero `ZoneList` / `RecordList` (the value left in the struct;
the source ignores the returned error). -/
structure World where
  Do : List Event → Request → HttpResult
  unmarshalZoneList : GoString → ZoneList
  unmarshalRecordList : GoString → RecordList

/-! ## `GetV4Address`, `GetV6Address` (lines 211-250) -/

/-- The request of `GetV4Address` (lines 212-218). -/
def v4Request (f : Flags) : Request :=
  let url := lit "v4." ++ f.externalAddressSource
  let url := if f.externalSourceUseSSL then lit "https://" ++ url else lit "http://" ++ url
  { method := lit "GET", url := url, header := [], body := none }

/-- The request of `GetV6Address` (lines 233-239). -/
def v6Request (f : Flags) : Request :=
  let url := lit "v6." ++ f.externalAddressSource
  let url := if f.externalSourceUseSSL then lit "https://" ++ url else lit "http://" ++ url
  { method := lit "GET", url := url, header := [], body := none }

/-- The function `GetV4Address`: a nil request makes `client.Do` panic, a transport error
panics, a read error is ignored. -/
def GetV4Address (w : World) (f : Flags) (tr : List Event) : Outcome GoString × List Event :=
  let req := v4Request f
  match w.Do tr req with
  | .invalid => (.panic .nilDereference, tr)
  | .failed err => (.panic (.error err), tr ++ [.http req])
  | .response address _ => (.ret (TrimSpace address), tr ++ [.http req])

/-- The function `GetV6Address`. -/
def GetV6Address (w : World) (f : Flags) (tr : List Event) : Outcome GoString × List Event :=
  let req := v6Request f
  match w.Do tr req with
  | .invalid => (.panic .nilDereference, tr)
  | .failed err => (.panic (.error err), tr ++ [.http req])
  | .response address _ => (.ret (TrimSpace address), tr ++ [.http req])

/-! ## `UpdateRecord` (lines 186-208) -/

/-- The base URL of the provider's API. -/
def apiBase : GoString := lit "https://api.cloudflare.com/client/v4"

/-- The request of `UpdateRecord` (lines 187-191). -/
def putRequest (fin : Final) (zoneID recordID recordType recordName recordContent : GoString) :
    Request :=
  let data := lit "\x7b\"id\": \"" ++ recordID ++ lit "\", \"content\": \"" ++ recordContent
    ++ lit "\", \"type\": \"" ++ recordType ++ lit "\", \"name\": \"" ++ recordName
    ++ lit "\", \"ttl\": 120\x7d"
  { method := lit "PUT"
    url := lit "https://api.cloudflare.com/client/v4/zones/" ++ zoneID ++ lit "/dns_records/"
      ++ recordID
    header := [(lit "X-Auth-Key", fin.finalKey), (lit "X-Auth-Email", fin.finalEmail),
      (lit "Content-Type", lit "application/json")]
    body := some data }

/-- The function `UpdateRecord`: `none` is the `nil` error.  A nil request panics at
`req.Header.Add` (line 189). -/
def UpdateRecord (w : World) (fin : Final)
    (zoneID recordID recordType recordName recordContent : GoString) (tr : List Event) :
    Outcome (Option GoError) × List Event :=
  let req := putRequest fin zoneID recordID recordType recordName recordContent
  match w.Do tr req with
  | .invalid => (.panic .nilDereference, tr)
  | .failed err => (.ret (some err), tr ++ [.http req])
  | .response body _ =>
    let rList := w.unmarshalRecordList body
    if !rList.Success then
      match rList.Errors with
      | [] => (.panic .indexOutOfRange, tr ++ [.http req])
      | e0 :: _ => (.ret (some (Errorf e0.Code e0.Message)), tr ++ [.http req])
    else (.ret none, tr ++ [.http req])

/-! ## `UpdateIP` (lines 123-183) -/

/-- The zone lookup request (lines 124-127). -/
def zonesRequest (fin : Final) : Request :=
  { method := lit "GET"
    url := lit "https://api.cloudflare.com/client/v4/zones?name=" ++ fin.finalDomain
      ++ lit "&status=active&page=1&per_page=1&order=status&direction=desc&match=all"
    header := [(lit "X-Auth-Email", fin.finalEmail), (lit "X-Auth-Key", fin.finalKey),
      (lit "Content-Type", lit "application/json")]
    body := none }

/-- The record listing request (lines 148-151). -/
def recordsRequest (fin : Final) (id : GoString) : Request :=
  { method := lit "GET"
    url := lit "https://api.cloudflare.com/client/v4/zones/" ++ id ++ lit "/dns_records?name="
      ++ fin.finalSubdomain ++ lit "." ++ fin.finalDomain
      ++ lit "&page=1&per_page=20&order=type&direction=desc&match=all"
    header := [(lit "X-Auth-Key", fin.finalKey), (lit "X-Auth-Email", fin.finalEmail),
      (lit "Content-Type", lit "application/json")]
    body := none }

/-- The first `if` of the loop body (lines 168-173). -/
def updateA (w : World) (f : Flags) (fin : Final) (id : GoString) (record : Record)
    (tr : List Event) : Outcome (Option GoError) × List Event :=
  if record.Type_ = lit "A" ∧ f.v4 = true then
    match GetV4Address w f tr with
    | (.panic p, tr) => (.panic p, tr)
    | (.ret address, tr) => UpdateRecord w fin id record.ID record.Type_ record.Name address tr
  else (.ret none, tr)

/-- The second `if` of the loop body (lines 175-180). -/
def updateAAAA (w : World) (f : Flags) (fin : Final) (id : GoString) (record : Record)
    (tr : List Event) : Outcome (Option GoError) × List Event :=
  if record.Type_ = lit "AAAA" ∧ f.v6 = true then
    match GetV6Address w f tr with
    | (.panic p, tr) => (.panic p, tr)
    | (.ret address, tr) => UpdateRecord w fin id record.ID record.Type_ record.Name address tr
  else (.ret none, tr)

/-- One round of the loop (lines 168-180): `.ret none` means the loop goes on, `.ret
(some err)` is `return err`. -/
def updateRecordStep (w : World) (f : Flags) (fin : Final) (id : GoString) (record : Record)
    (tr : List Event) : Outcome (Option GoError) × List Event :=
  match updateA w f fin id record tr with
  | (.panic p, tr) => (.panic p, tr)
  | (.ret (some err), tr) => (.ret (some err), tr)
  | (.ret none, tr) => updateAAAA w f fin id record tr

/-- The loop `for _, record := range rList.Result` and the final `return nil` (lines
167-182). -/
def updateRecords (w : World) (f : Flags) (fin : Final) (id : GoString) :
    List Record → List Event → Outcome (Option GoError) × List Event
  | [], tr => (.ret none, tr)
  | record :: rest, tr =>
    match updateRecordStep w f fin id record tr with
    | (.panic p, tr) => (.panic p, tr)
    | (.ret (some err), tr) => (.ret (some err), tr)
    | (.ret none, tr) => updateRecords w f fin id rest tr

/-- The zone lookup of `UpdateIP` (lines 124-146): the zone ID, or the error `UpdateIP`
returns, or a fault (nil request at line 125, index out of range at lines 144, 146). -/
def lookupZone (w : World) (fin : Final) (tr : List Event) :
    Outcome (Except GoError GoString) × List Event :=
  let req := zonesRequest fin
  match w.Do tr req with
  | .invalid => (.panic .nilDereference, tr)
  | .failed err => (.ret (.error err), tr ++ [.http req])
  | .response _ (some err) => (.ret (.error err), tr ++ [.http req])
  | .response body none =>
    let zList := w.unmarshalZoneList body
    if !zList.Success then
      match zList.Errors with
      | [] => (.panic .indexOutOfRange, tr ++ [.http req])
      | e0 :: _ => (.ret (.error (Errorf e0.Code e0.Message)), tr ++ [.http req])
    else
      match zList.Result with
      | [] => (.panic .indexOutOfRange, tr ++ [.http req])
      | z0 :: _ => (.ret (.ok z0.ID), tr ++ [.http req])

/-- The function `UpdateIP`: `none` is the `nil` error. -/
def UpdateIP (w : World) (f : Flags) (fin : Final) (tr : List Event) :
    Outcome (Option GoError) × List Event :=
  match lookupZone w fin tr with
  | (.panic p, tr) => (.panic p, tr)
  | (.ret (.error err), tr) => (.ret (some err), tr)
  | (.ret (.ok id), tr) =>
    let req := recordsRequest fin id
    match w.Do tr req with
    | .invalid => (.panic .nilDereference, tr)
    | .failed err => (.ret (some err), tr ++ [.http req])
    | .response _ (some err) => (.ret (some err), tr ++ [.http req])
    | .response body none =>
      let rList := w.unmarshalRecordList body
      updateRecords w f fin id rList.Result (tr ++ [.http req])

/-! ## `main` (lines 75-120) -/

/-- The constant `Version`. -/
def Version : GoString := lit "1.0.0"

/-- The logging fetch of lines 106-108. -/
def logV4 (w : World) (f : Flags) (tr : List Event) : Outcome Unit × List Event :=
  if f.v4 = true then
    match GetV4Address w f tr with
    | (.panic p, tr) => (.panic p, tr)
    | (.ret address, tr) =>
      (.ret (), tr ++ [.log .info (lit "external IPv4 address: " ++ address)])
  else (.ret (), tr)

/-- The logging fetch of lines 110-112. -/
def logV6 (w : World) (f : Flags) (tr : List Event) : Outcome Unit × List Event :=
  if f.v6 = true then
    match GetV6Address w f tr with
    | (.panic p, tr) => (.panic p, tr)
    | (.ret address, tr) =>
      (.ret (), tr ++ [.log .info (lit "external IPv6 address: " ++ address)])
  else (.ret (), tr)

/-- Lines 76-112 of `main`: everything before the call of `UpdateIP`. -/
def mainBeforeUpdate (w : World) (f : Flags) (fin : Final) : Outcome Unit × List Event :=
  let tr : List Event := [.log .info (lit "Starting cloudflare-ddns v" ++ Version)]
  let tr := tr ++ [.log .info (lit "Updating record for " ++ fin.finalSubdomain ++ lit "."
    ++ fin.finalDomain ++ lit "\n")]
  let tr := tr ++ [.log .info (lit "\tv4: " ++ fmtT f.v4 ++ lit "\n")]
  let tr := tr ++ [.log .info (lit "\tv6: " ++ fmtT f.v6 ++ lit "\n")]
  match logV4 w f tr with
  | (.panic p, tr) => (.panic p, tr)
  | (.ret (), tr) => logV6 w f tr

/-- The function `main`. -/
def main (w : World) (args : Args) (getenv : Environ) : Outcome Unit × List Event :=
  let f := parseFlags args
  let fin := resolveFinal f getenv
  match mainBeforeUpdate w f fin with
  | (.panic p, tr) => (.panic p, tr)
  | (.ret (), tr) =>
    match UpdateIP w f fin tr with
    | (.panic p, tr) => (.panic p, tr)
    | (.ret (some err), tr) => (.ret (), tr ++ [.log .error err.Error])
    | (.ret none, tr) => (.ret (), tr ++ [.log .info (lit "Successfully updated DNS records")])

/-! ## Notions used to state the properties -/

/-- Lower bound of the second byte after lead byte `p0` of a three-byte sequence. -/
def lo3 (p0 : Nat) : Nat := if p0 = 0xE0 then 0xA0 else 0x80

/-- Upper bound of the second byte after lead byte `p0` of a three-byte sequence. -/
def hi3 (p0 : Nat) : Nat := if p0 = 0xED then 0x9F else 0xBF

/-- Lower bound of the second byte after lead byte `p0` of a four-byte sequence. -/
def lo4 (p0 : Nat) : Nat := if p0 = 0xF0 then 0x90 else 0x80

/-- Upper bound of the second byte after lead byte `p0` of a four-byte sequence. -/
def hi4 (p0 : Nat) : Nat := if p0 = 0xF4 then 0x8F else 0xBF

/-- A byte that is not a continuation byte (0x80-0xBF), or the end of input. -/
def NoContinuationHead (rest : GoString) : Prop :=
  ∀ b ∈ rest.head?, b < 0x80 ∨ 0xBF < b

/-- Every rune of the list is a space. -/
def AllSpace (rs : List Nat) : Prop := ∀ r ∈ rs, IsSpace r = true


/-- The bytes start with the encoding of a white space character. -/
def StartsWithSpace (t : GoString) : Prop := ∃ r, IsSpace r = true ∧ EncodeRune r <+: t

/-- The bytes end with the encoding of a white space character. -/
def EndsWithSpace (t : GoString) : Prop := ∃ r, IsSpace r = true ∧ EncodeRune r <:+ t

/-- The bytes `t` are `b` with its leading and trailing white space removed and nothing
else changed: what was dropped in front and behind are encoded space runes, and `t` neither
starts nor ends with one. -/
def IsTrimOf (b t : GoString) : Prop :=
  (∃ pre post : List Nat, AllSpace pre ∧ AllSpace post
      ∧ b = encodeRunes pre ++ t ++ encodeRunes post)
    ∧ ¬ StartsWithSpace t ∧ ¬ EndsWithSpace t


/-- The record's type matches an enabled protocol (the conditions of lines 168 and 175). -/
def matchesProtocol (f : Flags) (record : Record) : Prop :=
  (record.Type_ = lit "A" ∧ f.v4 = true) ∨ (record.Type_ = lit "AAAA" ∧ f.v6 = true)

/-- Whether a record matches an enabled protocol can be computed. -/
instance matchesProtocolDecidable (f : Flags) (record : Record) :
    Decidable (matchesProtocol f record) := by
  unfold matchesProtocol
  infer_instance

/-- The address request made for a record of type "A" (IPv4) or else "AAAA" (IPv6). -/
def fetchFor (f : Flags) (record : Record) : Request :=
  if record.Type_ = lit "A" then v4Request f else v6Request f

/-- The two requests made for a record that is updated with address `address`. -/
def updateEvents (f : Flags) (fin : Final) (id : GoString) (record : Record)
    (address : GoString) : List Event :=
  [.http (fetchFor f record),
    .http (putRequest fin id record.ID record.Type_ record.Name address)]

/-- The world answers, one after the other from the trace `tr` on, the address fetch and
the PUT of each of the records with success: the fetch with a body that trims to the
listed address, the PUT with an envelope whose `success` is true. -/
def UpdatesSucceed (w : World) (f : Flags) (fin : Final) (id : GoString) :
    List Record → List GoString → List Event → Prop
  | [], [], _ => True
  | m :: ms, a :: more, tr =>
    (∃ body e, w.Do tr (fetchFor f m) = .response body e ∧ TrimSpace body = a)
    ∧ (∃ pbody pe,
        w.Do (tr ++ [.http (fetchFor f m)]) (putRequest fin id m.ID m.Type_ m.Name a)
          = .response pbody pe
        ∧ (w.unmarshalRecordList pbody).Success = true)
    ∧ UpdatesSucceed w f fin id ms more (tr ++ updateEvents f fin id m a)
  | [], _ :: _, _ => False
  | _ :: _, [], _ => False

/-- The HTTP requests among the events, in order. -/
def httpRequests : List Event → List Request
  | [] => []
  | .http req :: rest => req :: httpRequests rest
  | .log _ _ :: rest => httpRequests rest


/-! ## Concrete runs -/

/-- No flag given on the command line. -/
def noArgs : Args := ⟨none, none, none, none, none, none, none, none⟩

/-- Both protocol toggles switched off: `-v4=false -v6=false`. -/
def togglesOffArgs : Args := ⟨none, none, none, none, some false, some false, none, none⟩

/-- An environment that sets the four variables. -/
def demoEnviron : Environ := fun name =>
  if name = lit "CLOUDFLARE_DDNS_KEY" then lit "k"
  else if name = lit "CLOUDFLARE_DDNS_EMAIL" then lit "me@example.com"
  else if name = lit "CLOUDFLARE_DDNS_DOMAIN" then lit "example.com"
  else if name = lit "CLOUDFLARE_DDNS_SUBDOMAIN" then lit "www"
  else lit ""

/-- The flags and settings of a run without command line flags in `demoEnviron`. -/
def demoFlags : Flags := parseFlags noArgs

/-- The settings of that run. -/
def demoFinal : Final := resolveFinal demoFlags demoEnviron

/-- The zone list of the scenario: `{"success":true,"result":[{"id":"z1",
"name":"example.com"}]}`. -/
def demoZoneList : ZoneList := ⟨true, [], [], [⟨lit "z1", lit "example.com"⟩]⟩

/-- The record of the scenario: `{"id":"r1","type":"A","name":"example.com"}`. -/
def demoRecord : Record := ⟨lit "r1", lit "A", lit "example.com", [], false, [], []⟩

/-- A world in which every request is answered with the body " 1.2.3.4\n", the zone
list is `demoZoneList` and every record list is the one record `demoRecord`, with
`success` true. -/
def demoWorld : World where
  Do := fun _ _ => .response (lit " 1.2.3.4\n") none
  unmarshalZoneList := fun _ => demoZoneList
  unmarshalRecordList := fun _ => ⟨true, [], [], [demoRecord]⟩

/-- A world in which the zone lookup succeeds and the record listing is answered with
`{"success":false,"errors":[{"code":1003,"message":"Invalid zone"}]}`. -/
def listingFailsWorld : World where
  Do := fun _ _ => .response (lit "1.2.3.4") none
  unmarshalZoneList := fun _ => demoZoneList
  unmarshalRecordList := fun _ => ⟨false, [⟨1003, lit "Invalid zone"⟩], [], []⟩

/-- A world in which no provider body parses: the structs keep their zero value. -/
def unparsableWorld : World where
  Do := fun _ _ => .response (lit "<html>") none
  unmarshalZoneList := fun _ => ZoneList.zero
  unmarshalRecordList := fun _ => RecordList.zero

/-- Four records: an A record, a TXT record, an AAAA record and another A record. -/
def fourRecords : List Record :=
  [⟨lit "r1", lit "A", lit "example.com", [], false, [], []⟩,
   ⟨lit "r0", lit "TXT", lit "example.com", [], false, [], []⟩,
   ⟨lit "r2", lit "AAAA", lit "example.com", [], false, [], []⟩,
   ⟨lit "r3", lit "A", lit "example.com", [], false, [], []⟩]

/-- A world that lists `fourRecords` and answers the PUT of record "r2" with
`{"success":false,"errors":[{"code":1003,"message":"Invalid zone"}]}` (body "no"), every
other request with the body "1.2.3.4\n". -/
def secondFailsWorld : World where
  Do := fun _ req =>
    if req.method = lit "PUT" ∧ req.url = lit "https://api.cloudflare.com/client/v4/zones/z1/dns_records/r2"
    then .response (lit "no") none
    else .response (lit "1.2.3.4\n") none
  unmarshalZoneList := fun _ => demoZoneList
  unmarshalRecordList := fun body =>
    if body = lit "no" then ⟨false, [⟨1003, lit "Invalid zone"⟩], [], []⟩
    else ⟨true, [], [], fourRecords⟩

/-- The record `{"id":"%zz","type":"A","name":"example.com"}`: its ID is not a valid
URL escape. -/
def badEscapeRecord : Record := ⟨lit "%zz", lit "A", lit "example.com", [], false, [], []⟩

/-- A world that lists the one record `badEscapeRecord`; `http.NewRequest` rejects the
URL text of its PUT (invalid URL escape "%zz"), every other request is answered with
the body " 1.2.3.4\n". -/
def badEscapeWorld : World where
  Do := fun _ req =>
    if req.url = lit "https://api.cloudflare.com/client/v4/zones/z1/dns_records/%zz"
    then .invalid
    else .response (lit " 1.2.3.4\n") none
  unmarshalZoneList := fun _ => demoZoneList
  unmarshalRecordList := fun _ => ⟨true, [], [], [badEscapeRecord]⟩

/-! ## Evaluating the embedding on concrete inputs -/

theorem lit_examples :
    lit "@" = [64] ∧ lit "" = [] ∧ lit "AAAA" = [65, 65, 65, 65]
      ∧ EncodeRune 0x2000 = [0xE2, 0x80, 0x80] ∧ EncodeRune 0xA0 = [0xC2, 0xA0]
      ∧ EncodeRune 0x1F600 = [0xF0, 0x9F, 0x98, 0x80] := by
  decide

theorem DecodeRune_examples :
    DecodeRune [0xE2, 0x80, 0x80, 65] = (0x2000, 3)
      ∧ DecodeRune [0xF0, 0x9F, 0x98, 0x80] = (0x1F600, 4)
      ∧ DecodeRune [0xC0, 0x80] = (RuneError, 1)
      ∧ DecodeLastRune [65, 0xE2, 0x80, 0x80] = (0x2000, 3)
      ∧ DecodeLastRune [65, 0xC2, 0xA0, 0x80] = (RuneError, 1) := by
  decide

theorem TrimSpace_examples :
    TrimSpace (lit " \t1.2.3.4\n") = lit "1.2.3.4"
      ∧ TrimSpace ([0xC2, 0xA0, 32] ++ lit "1.2.3.4\r\n" ++ [0xE2, 0x80, 0x80]) = lit "1.2.3.4"
      ∧ TrimFunc ([0xC2, 0xA0, 32] ++ lit "1.2.3.4\r\n" ++ [0xE2, 0x80, 0x80, 32]) IsSpace
          = lit "1.2.3.4"
      ∧ TrimSpace (lit "2001:db8::1 \r\n") = lit "2001:db8::1"
      ∧ TrimSpace [32, 0x85, 0xC2, 32] = [0x85, 0xC2]
      ∧ TrimSpace [32, 9, 10] = [] := by
  decide

theorem fmtD_examples :
    fmtD 1003 = lit "1003" ∧ fmtD (-42) = lit "-42" ∧ fmtD 0 = lit "0"
      ∧ Errorf 1003 (lit "Invalid zone") = .errorf (lit "1003: Invalid zone") := by
  decide

/-- A whole run of `main` in `demoWorld`: two logging fetches, the zone lookup, the
record listing, one address fetch and one PUT. -/
theorem main_example :
    (main demoWorld noArgs demoEnviron).1 = .ret ()
      ∧ httpRequests (main demoWorld noArgs demoEnviron).2 =
        [v4Request demoFlags, v6Request demoFlags, zonesRequest demoFinal,
          recordsRequest demoFinal (lit "z1"), v4Request demoFlags,
          putRequest demoFinal (lit "z1") (lit "r1") (lit "A") (lit "example.com")
            (lit "1.2.3.4")] := by
  decide

/-! ## Facts about the UTF-8 decoders -/

theorem and_maskx (x : Nat) : x &&& maskx = x % 64 := Nat.and_pow_two_sub_one_eq_mod x 6
theorem and_mask2 (x : Nat) : x &&& mask2 = x % 32 := Nat.and_pow_two_sub_one_eq_mod x 5
theorem and_mask3 (x : Nat) : x &&& mask3 = x % 16 := Nat.and_pow_two_sub_one_eq_mod x 4
theorem and_mask4 (x : Nat) : x &&& mask4 = x % 8 := Nat.and_pow_two_sub_one_eq_mod x 3

/-- Or-ing disjoint bit fields is addition. -/
theorem or_eq_add (i x c : Nat) (hx : x % 2 ^ i = 0) (hc : c < 2 ^ i) : x ||| c = x + c := by
  have h := Nat.mul_add_lt_is_or hc (x / 2 ^ i)
  have hx2 : 2 ^ i * (x / 2 ^ i) = x := by
    have := Nat.div_add_mod x (2 ^ i)
    omega
  rw [hx2] at h
  exact h.symm

theorem rune2_eq (p0 b1 : Nat) :
    (p0 &&& mask2) <<< 6 ||| (b1 &&& maskx) = p0 % 32 * 64 + b1 % 64 := by
  rw [and_maskx, and_mask2, Nat.shiftLeft_eq]
  exact or_eq_add 6 _ _ (by omega) (by omega)

theorem rune3_eq (p0 b1 b2 : Nat) :
    (p0 &&& mask3) <<< 12 ||| (b1 &&& maskx) <<< 6 ||| (b2 &&& maskx)
      = p0 % 16 * 4096 + b1 % 64 * 64 + b2 % 64 := by
  rw [and_maskx, and_maskx, and_mask3, Nat.shiftLeft_eq, Nat.shiftLeft_eq]
  rw [or_eq_add 12 (p0 % 16 * 2 ^ 12) (b1 % 64 * 2 ^ 6) (by omega) (by omega)]
  exact or_eq_add 6 _ _ (by omega) (by omega)

theorem rune4_eq (p0 b1 b2 b3 : Nat) :
    (p0 &&& mask4) <<< 18 ||| (b1 &&& maskx) <<< 12 ||| (b2 &&& maskx) <<< 6 ||| (b3 &&& maskx)
      = p0 % 8 * 262144 + b1 % 64 * 4096 + b2 % 64 * 64 + b3 % 64 := by
  rw [and_maskx, and_maskx, and_maskx, and_mask4, Nat.shiftLeft_eq, Nat.shiftLeft_eq,
    Nat.shiftLeft_eq]
  rw [or_eq_add 18 (p0 % 8 * 2 ^ 18) (b1 % 64 * 2 ^ 12) (by omega) (by omega)]
  rw [or_eq_add 12 _ (b2 % 64 * 2 ^ 6) (by omega) (by omega)]
  exact or_eq_add 6 _ _ (by omega) (by omega)

theorem DecodeRune_nil : DecodeRune [] = (RuneError, 0) := rfl

theorem DecodeRune_ascii (p0 : Nat) (rest : GoString) (h : p0 < 0x80) :
    DecodeRune (p0 :: rest) = (p0, 1) := by
  simp [DecodeRune, first, h, as]

theorem DecodeRune_badLead (p0 : Nat) (rest : GoString)
    (h : (0x80 ≤ p0 ∧ p0 < 0xC2) ∨ 0xF5 ≤ p0) : DecodeRune (p0 :: rest) = (RuneError, 1) := by
  have h1 : first p0 = xx := by
    unfold first
    split_ifs <;> first | rfl | omega
  simp [DecodeRune, h1, xx, as]

theorem first_two (p0 : Nat) (h : 0xC2 ≤ p0 ∧ p0 < 0xE0) :
    first p0 &&& 7 = 2 ∧ ¬ first p0 ≥ as ∧ acceptRanges (first p0 >>> 4) = ⟨0x80, 0xBF⟩ := by
  unfold first
  split_ifs <;> first | omega | exact ⟨by decide, by decide, by rfl⟩

theorem DecodeRune_two (p0 : Nat) (rest : GoString) (h : 0xC2 ≤ p0 ∧ p0 < 0xE0) :
    DecodeRune (p0 :: rest) =
      match rest with
      | [] => (RuneError, 1)
      | b1 :: _ =>
        if b1 < 0x80 ∨ 0xBF < b1 then (RuneError, 1) else (p0 % 32 * 64 + b1 % 64, 2) := by
  obtain ⟨h1, h2, h3⟩ := first_two p0 h
  cases rest with
  | nil => simp [DecodeRune, h1, if_neg h2]
  | cons b1 rest1 =>
    simp only [DecodeRune, h1, h3, rune2_eq, if_neg h2]
    simp

theorem first_three (p0 : Nat) (h : 0xE0 ≤ p0 ∧ p0 < 0xF0) :
    first p0 &&& 7 = 3 ∧ ¬ first p0 ≥ as ∧ acceptRanges (first p0 >>> 4) = ⟨lo3 p0, hi3 p0⟩ := by
  unfold first lo3 hi3
  split_ifs <;> first | omega | exact ⟨by decide, by decide, by rfl⟩

theorem DecodeRune_three (p0 b1 b2 : Nat) (rest : GoString) (h : 0xE0 ≤ p0 ∧ p0 < 0xF0) :
    DecodeRune (p0 :: b1 :: b2 :: rest) =
      if b1 < lo3 p0 ∨ hi3 p0 < b1 then (RuneError, 1)
      else if b2 < 0x80 ∨ 0xBF < b2 then (RuneError, 1)
      else (p0 % 16 * 4096 + b1 % 64 * 64 + b2 % 64, 3) := by
  obtain ⟨h1, h2, h3⟩ := first_three p0 h
  simp only [DecodeRune, h1, h3, rune3_eq, if_neg h2]
  simp [locb, hicb]

theorem DecodeRune_three_short (p0 : Nat) (rest : GoString) (h : 0xE0 ≤ p0 ∧ p0 < 0xF0)
    (hlen : rest.length < 2) : DecodeRune (p0 :: rest) = (RuneError, 1) := by
  obtain ⟨h1, h2, h3⟩ := first_three p0 h
  match rest, hlen with
  | [], _ => simp [DecodeRune, h1, h3, if_neg h2]
  | [b1], _ => simp [DecodeRune, h1, h3, if_neg h2]

theorem first_four (p0 : Nat) (h : 0xF0 ≤ p0 ∧ p0 < 0xF5) :
    first p0 &&& 7 = 4 ∧ ¬ first p0 ≥ as ∧ acceptRanges (first p0 >>> 4) = ⟨lo4 p0, hi4 p0⟩ := by
  unfold first lo4 hi4
  split_ifs <;> first | omega | exact ⟨by decide, by decide, by rfl⟩

theorem DecodeRune_four (p0 b1 b2 b3 : Nat) (rest : GoString) (h : 0xF0 ≤ p0 ∧ p0 < 0xF5) :
    DecodeRune (p0 :: b1 :: b2 :: b3 :: rest) =
      if b1 < lo4 p0 ∨ hi4 p0 < b1 then (RuneError, 1)
      else if b2 < 0x80 ∨ 0xBF < b2 then (RuneError, 1)
      else if b3 < 0x80 ∨ 0xBF < b3 then (RuneError, 1)
      else (p0 % 8 * 262144 + b1 % 64 * 4096 + b2 % 64 * 64 + b3 % 64, 4) := by
  obtain ⟨h1, h2, h3⟩ := first_four p0 h
  simp only [DecodeRune, h1, h3, rune4_eq, if_neg h2]
  simp [locb, hicb]

theorem DecodeRune_four_short (p0 : Nat) (rest : GoString) (h : 0xF0 ≤ p0 ∧ p0 < 0xF5)
    (hlen : rest.length < 3) : DecodeRune (p0 :: rest) = (RuneError, 1) := by
  obtain ⟨h1, h2, h3⟩ := first_four p0 h
  match rest, hlen with
  | [], _ => simp [DecodeRune, h1, h3, if_neg h2]
  | [b1], _ => simp [DecodeRune, h1, h3, if_neg h2]
  | [b1, b2], _ => simp [DecodeRune, h1, h3, if_neg h2]


theorem EncodeRune_one (r : Nat) (h : r < 0x80) : EncodeRune r = [r] := by
  have h1 : r ≤ rune1Max := by unfold rune1Max; omega
  simp only [EncodeRune, if_pos h1, byte]
  rw [Nat.mod_eq_of_lt (by omega)]

theorem EncodeRune_two (r : Nat) (h : 0x80 ≤ r ∧ r ≤ 0x7FF) :
    EncodeRune r = [0xC0 + r / 64, 0x80 + r % 64] := by
  have h1 : ¬ r ≤ rune1Max := by unfold rune1Max; omega
  have h2 : r ≤ rune2Max := by unfold rune2Max; omega
  simp only [EncodeRune, if_neg h1, if_pos h2, byte, and_maskx, Nat.shiftRight_eq_div_pow, t2, tx]
  rw [or_eq_add 6 0xC0 _ (by decide) (by omega), or_eq_add 7 0x80 _ (by decide) (by omega)]
  have e1 : r / 2 ^ 6 % 256 = r / 64 := by omega
  have e3 : r % 256 % 64 = r % 64 := by omega
  rw [e1, e3]

theorem EncodeRune_three (r : Nat) (h : 0x800 ≤ r ∧ r ≤ 0xFFFF)
    (hs : ¬ (0xD800 ≤ r ∧ r ≤ 0xDFFF)) :
    EncodeRune r = [0xE0 + r / 4096, 0x80 + r / 64 % 64, 0x80 + r % 64] := by
  have h1 : ¬ r ≤ rune1Max := by unfold rune1Max; omega
  have h2 : ¬ r ≤ rune2Max := by unfold rune2Max; omega
  have h3 : ¬ (r > MaxRune ∨ (surrogateMin ≤ r ∧ r ≤ surrogateMax)) := by
    unfold MaxRune surrogateMin surrogateMax; omega
  have h4 : r ≤ rune3Max := by unfold rune3Max; omega
  simp only [EncodeRune, if_neg h1, if_neg h2, if_neg h3, if_pos h4, byte, and_maskx,
    Nat.shiftRight_eq_div_pow, t3, tx]
  rw [or_eq_add 5 0xE0 _ (by decide) (by omega), or_eq_add 7 0x80 _ (by decide) (by omega),
    or_eq_add 7 0x80 _ (by decide) (by omega)]
  have e1 : r / 2 ^ 12 % 256 = r / 4096 := by omega
  have e2 : r / 2 ^ 6 % 256 % 64 = r / 64 % 64 := by omega
  have e3 : r % 256 % 64 = r % 64 := by omega
  rw [e1, e2, e3]

/-- Every byte sequence that decodes to a rune of width at least two, and every ASCII
byte, is the encoding of the rune it decodes to. -/
theorem DecodeRune_encode (p : GoString) (r : Nat) (w : Nat) (h : DecodeRune p = (r, w))
    (hr : r < 0x10000) (hv : 2 ≤ w ∨ r < 0x80) (hne : p ≠ []) :
    ∃ rest, p = EncodeRune r ++ rest ∧ w = (EncodeRune r).length := by
  match p, hne with
  | p0 :: rest, _ =>
    by_cases c1 : p0 < 0x80
    · rw [DecodeRune_ascii p0 rest c1] at h
      simp only [Prod.mk.injEq] at h
      obtain ⟨rfl, rfl⟩ := h
      exact ⟨rest, by simp [EncodeRune_one _ c1], by simp [EncodeRune_one _ c1]⟩
    by_cases c2 : p0 < 0xC2 ∨ 0xF5 ≤ p0
    · rw [DecodeRune_badLead p0 rest (by omega)] at h
      simp only [Prod.mk.injEq, RuneError] at h
      omega
    by_cases c3 : p0 < 0xE0
    · rw [DecodeRune_two p0 rest (by omega)] at h
      match rest with
      | [] =>
        simp only [Prod.mk.injEq, RuneError] at h
        omega
      | b1 :: rest1 =>
        simp only at h
        split_ifs at h with hb
        · simp only [Prod.mk.injEq, RuneError] at h
          omega
        · simp only [Prod.mk.injEq] at h
          obtain ⟨rfl, rfl⟩ := h
          rw [EncodeRune_two _ (by omega)]
          refine ⟨rest1, ?_, by simp⟩
          simp only [List.cons_append, List.nil_append, List.cons.injEq, and_true]
          omega
    by_cases c4 : p0 < 0xF0
    · match rest with
      | [] =>
        rw [DecodeRune_three_short p0 _ (by omega) (by simp)] at h
        simp only [Prod.mk.injEq, RuneError] at h
        omega
      | [b1] =>
        rw [DecodeRune_three_short p0 _ (by omega) (by simp)] at h
        simp only [Prod.mk.injEq, RuneError] at h
        omega
      | b1 :: b2 :: rest2 =>
        rw [DecodeRune_three p0 b1 b2 rest2 (by omega)] at h
        unfold lo3 hi3 at h
        split_ifs at h <;> simp only [Prod.mk.injEq, RuneError] at h <;> first | omega | skip
        all_goals
          obtain ⟨rfl, rfl⟩ := h
          rw [EncodeRune_three _ (by omega) (by omega)]
          refine ⟨rest2, ?_, by simp⟩
          simp only [List.cons_append, List.nil_append, List.cons.injEq, and_true]
          omega
    · match rest with
      | [] =>
        rw [DecodeRune_four_short p0 _ (by omega) (by simp)] at h
        simp only [Prod.mk.injEq, RuneError] at h
        omega
      | [b1] =>
        rw [DecodeRune_four_short p0 _ (by omega) (by simp)] at h
        simp only [Prod.mk.injEq, RuneError] at h
        omega
      | [b1, b2] =>
        rw [DecodeRune_four_short p0 _ (by omega) (by simp)] at h
        simp only [Prod.mk.injEq, RuneError] at h
        omega
      | b1 :: b2 :: b3 :: rest3 =>
        rw [DecodeRune_four p0 b1 b2 b3 rest3 (by omega)] at h
        unfold lo4 hi4 at h
        split_ifs at h <;> simp only [Prod.mk.injEq, RuneError] at h <;> omega



/-- Decoding what `EncodeRune` wrote gives the rune back (runes below U+10000 that are
not surrogates), whatever follows. -/
theorem DecodeRune_EncodeRune (r : Nat) (rest : GoString) (hr : r < 0x10000)
    (hs : ¬ (0xD800 ≤ r ∧ r ≤ 0xDFFF)) :
    DecodeRune (EncodeRune r ++ rest) = (r, (EncodeRune r).length) := by
  by_cases c1 : r < 0x80
  · rw [EncodeRune_one r c1]
    exact DecodeRune_ascii r _ c1
  by_cases c2 : r ≤ 0x7FF
  · rw [EncodeRune_two r (by omega)]
    simp only [List.cons_append, List.nil_append]
    rw [DecodeRune_two _ _ (by omega)]
    simp only [List.length_cons, List.length_nil]
    rw [if_neg (by omega)]
    simp only [Prod.mk.injEq, and_true]
    omega
  · rw [EncodeRune_three r (by omega) hs]
    simp only [List.cons_append, List.nil_append]
    rw [DecodeRune_three _ _ _ _ (by omega)]
    unfold lo3 hi3
    simp only [List.length_cons, List.length_nil]
    rw [if_neg (by split_ifs <;> omega), if_neg (by omega)]
    simp only [Prod.mk.injEq, and_true]
    omega

/-- The width reported for a non-empty input is at least one. -/
theorem DecodeRune_width_pos (p : GoString) (hne : p ≠ []) : 1 ≤ (DecodeRune p).2 := by
  match p, hne with
  | p0 :: rest, _ =>
    by_cases c1 : p0 < 0x80
    · rw [DecodeRune_ascii p0 rest c1]
    by_cases c2 : p0 < 0xC2 ∨ 0xF5 ≤ p0
    · rw [DecodeRune_badLead p0 rest (by omega)]
    by_cases c3 : p0 < 0xE0
    · rw [DecodeRune_two p0 rest (by omega)]
      match rest with
      | [] => simp
      | b1 :: rest1 =>
        simp only
        split_ifs <;> simp
    by_cases c4 : p0 < 0xF0
    · match rest with
      | [] => rw [DecodeRune_three_short p0 _ (by omega) (by simp)]
      | [b1] => rw [DecodeRune_three_short p0 _ (by omega) (by simp)]
      | b1 :: b2 :: rest2 =>
        rw [DecodeRune_three p0 b1 b2 rest2 (by omega)]
        split_ifs <;> simp
    · match rest with
      | [] => rw [DecodeRune_four_short p0 _ (by omega) (by simp)]
      | [b1] => rw [DecodeRune_four_short p0 _ (by omega) (by simp)]
      | [b1, b2] => rw [DecodeRune_four_short p0 _ (by omega) (by simp)]
      | b1 :: b2 :: b3 :: rest3 =>
        rw [DecodeRune_four p0 b1 b2 b3 rest3 (by omega)]
        split_ifs <;> simp

/-- A non-ASCII byte followed by something that is not a continuation byte decodes to
`RuneError` of width one. -/
theorem DecodeRune_lone (c : Nat) (rest : GoString) (hc : 0x80 ≤ c)
    (hrest : NoContinuationHead rest) : DecodeRune (c :: rest) = (RuneError, 1) := by
  by_cases c2 : c < 0xC2 ∨ 0xF5 ≤ c
  · exact DecodeRune_badLead c rest (by omega)
  by_cases c3 : c < 0xE0
  · rw [DecodeRune_two c rest (by omega)]
    match rest, hrest with
    | [], _ => rfl
    | b1 :: rest1, hrest =>
      have := hrest b1 (by simp)
      simp only
      rw [if_pos (by omega)]
  by_cases c4 : c < 0xF0
  · match rest, hrest with
    | [], _ => rw [DecodeRune_three_short c _ (by omega) (by simp)]
    | [b1], _ => rw [DecodeRune_three_short c _ (by omega) (by simp)]
    | b1 :: b2 :: rest2, hrest =>
      have := hrest b1 (by simp)
      rw [DecodeRune_three c b1 b2 rest2 (by omega), if_pos (by unfold lo3 hi3; split_ifs <;> omega)]
  · match rest, hrest with
    | [], _ => rw [DecodeRune_four_short c _ (by omega) (by simp)]
    | [b1], _ => rw [DecodeRune_four_short c _ (by omega) (by simp)]
    | [b1, b2], _ => rw [DecodeRune_four_short c _ (by omega) (by simp)]
    | b1 :: b2 :: b3 :: rest3, hrest =>
      have := hrest b1 (by simp)
      rw [DecodeRune_four c b1 b2 b3 rest3 (by omega),
        if_pos (by unfold lo4 hi4; split_ifs <;> omega)]

/-- A decoding of width at least two is unchanged by appending bytes. -/
theorem DecodeRune_append (q rest : GoString) (r w : Nat) (h : DecodeRune q = (r, w))
    (hw : 2 ≤ w) : DecodeRune (q ++ rest) = (r, w) ∧ 0x80 ≤ q.headD 0 := by
  match q with
  | [] =>
    rw [DecodeRune_nil] at h
    simp only [Prod.mk.injEq] at h
    omega
  | p0 :: q0 =>
    by_cases c1 : p0 < 0x80
    · rw [DecodeRune_ascii p0 q0 c1] at h
      simp only [Prod.mk.injEq] at h
      omega
    refine ⟨?_, by simp only [List.headD_cons]; omega⟩
    by_cases c2 : p0 < 0xC2 ∨ 0xF5 ≤ p0
    · rw [DecodeRune_badLead p0 q0 (by omega)] at h
      simp only [Prod.mk.injEq] at h
      omega
    by_cases c3 : p0 < 0xE0
    · rw [DecodeRune_two p0 q0 (by omega)] at h
      rw [List.cons_append, DecodeRune_two p0 _ (by omega)]
      match q0 with
      | [] =>
        simp only [Prod.mk.injEq] at h
        omega
      | b1 :: q1 => exact h
    by_cases c4 : p0 < 0xF0
    · match q0 with
      | [] =>
        rw [DecodeRune_three_short p0 _ (by omega) (by simp)] at h
        simp only [Prod.mk.injEq] at h
        omega
      | [b1] =>
        rw [DecodeRune_three_short p0 _ (by omega) (by simp)] at h
        simp only [Prod.mk.injEq] at h
        omega
      | b1 :: b2 :: q2 =>
        rw [DecodeRune_three p0 b1 b2 q2 (by omega)] at h
        simp only [List.cons_append]
        rw [DecodeRune_three p0 b1 b2 _ (by omega)]
        exact h
    · match q0 with
      | [] =>
        rw [DecodeRune_four_short p0 _ (by omega) (by simp)] at h
        simp only [Prod.mk.injEq] at h
        omega
      | [b1] =>
        rw [DecodeRune_four_short p0 _ (by omega) (by simp)] at h
        simp only [Prod.mk.injEq] at h
        omega
      | [b1, b2] =>
        rw [DecodeRune_four_short p0 _ (by omega) (by simp)] at h
        simp only [Prod.mk.injEq] at h
        omega
      | b1 :: b2 :: b3 :: q3 =>
        rw [DecodeRune_four p0 b1 b2 b3 q3 (by omega)] at h
        simp only [List.cons_append]
        rw [DecodeRune_four p0 b1 b2 b3 _ (by omega)]
        exact h


/-! ## Facts about `unicode.IsSpace` -/

theorem IsSpace_bound (r : Nat) (h : IsSpace r = true) :
    r < 0x10000 ∧ ¬ (0xD800 ≤ r ∧ r ≤ 0xDFFF) := by
  unfold IsSpace at h
  split_ifs at h with h1
  · omega
  · simp only [decide_eq_true_eq] at h
    omega

theorem IsSpace_ascii (c : Nat) (hc : c < 0x80) : IsSpace c = true ↔ asciiSpace c ≠ 0 := by
  unfold IsSpace asciiSpace
  rw [if_pos (by omega)]
  simp only [decide_eq_true_eq]
  constructor
  · intro h
    rw [if_pos (by omega)]
    decide
  · intro h
    split_ifs at h with h1
    · omega
    · exact absurd rfl h

theorem IsSpace_RuneError : IsSpace RuneError = false := by decide

theorem DecodeRune_space (r : Nat) (rest : GoString) (h : IsSpace r = true) :
    DecodeRune (EncodeRune r ++ rest) = (r, (EncodeRune r).length) :=
  DecodeRune_EncodeRune r rest (IsSpace_bound r h).1 (IsSpace_bound r h).2

/-- A prefix that decodes to a space rune is that rune's encoding. -/
theorem DecodeRune_space_inv (p : GoString) (r w : Nat) (h : DecodeRune p = (r, w))
    (hs : IsSpace r = true) : ∃ rest, p = EncodeRune r ++ rest ∧ w = (EncodeRune r).length := by
  have hb := IsSpace_bound r hs
  match p with
  | [] =>
    rw [DecodeRune_nil] at h
    simp only [Prod.mk.injEq] at h
    rw [← h.1, IsSpace_RuneError] at hs
    exact absurd hs (by decide)
  | p0 :: rest =>
    by_cases hw : 2 ≤ w ∨ r < 0x80
    · exact DecodeRune_encode _ r w h hb.1 hw (by simp)
    · exfalso
      by_cases c1 : p0 < 0x80
      · rw [DecodeRune_ascii p0 rest c1] at h
        simp only [Prod.mk.injEq] at h
        omega
      · have hpos := DecodeRune_width_pos (p0 :: rest) (by simp)
        rw [h] at hpos
        have hw1 : w = 1 := by simp only at hpos; omega
        subst hw1
        -- a width-one decoding of a non-ASCII byte is RuneError
        have : r = RuneError := by
          by_cases c2 : p0 < 0xC2 ∨ 0xF5 ≤ p0
          · rw [DecodeRune_badLead p0 rest (by omega)] at h
            simp only [Prod.mk.injEq] at h
            exact h.1.symm
          by_cases c3 : p0 < 0xE0
          · rw [DecodeRune_two p0 rest (by omega)] at h
            match rest with
            | [] =>
              simp only [Prod.mk.injEq] at h
              exact h.1.symm
            | b1 :: rest1 =>
              simp only at h
              split_ifs at h <;> simp only [Prod.mk.injEq] at h
              · exact h.1.symm
              · omega
          by_cases c4 : p0 < 0xF0
          · match rest with
            | [] =>
              rw [DecodeRune_three_short p0 _ (by omega) (by simp)] at h
              simp only [Prod.mk.injEq] at h
              exact h.1.symm
            | [b1] =>
              rw [DecodeRune_three_short p0 _ (by omega) (by simp)] at h
              simp only [Prod.mk.injEq] at h
              exact h.1.symm
            | b1 :: b2 :: rest2 =>
              rw [DecodeRune_three p0 b1 b2 rest2 (by omega)] at h
              split_ifs at h <;> simp only [Prod.mk.injEq] at h <;>
                first | exact h.1.symm | omega
          · match rest with
            | [] =>
              rw [DecodeRune_four_short p0 _ (by omega) (by simp)] at h
              simp only [Prod.mk.injEq] at h
              exact h.1.symm
            | [b1] =>
              rw [DecodeRune_four_short p0 _ (by omega) (by simp)] at h
              simp only [Prod.mk.injEq] at h
              exact h.1.symm
            | [b1, b2] =>
              rw [DecodeRune_four_short p0 _ (by omega) (by simp)] at h
              simp only [Prod.mk.injEq] at h
              exact h.1.symm
            | b1 :: b2 :: b3 :: rest3 =>
              rw [DecodeRune_four p0 b1 b2 b3 rest3 (by omega)] at h
              split_ifs at h <;> simp only [Prod.mk.injEq] at h <;>
                first | exact h.1.symm | omega
        rw [this, IsSpace_RuneError] at hs
        exact absurd hs (by decide)

theorem EncodeRune_length_pos (r : Nat) : 1 ≤ (EncodeRune r).length := by
  unfold EncodeRune
  split_ifs <;> simp

/-- The encoding of a rune below U+10000 never starts with a continuation byte. -/
theorem EncodeRune_head (r : Nat) (rest : GoString) (hr : r < 0x10000)
    (hs : ¬ (0xD800 ≤ r ∧ r ≤ 0xDFFF)) : NoContinuationHead (EncodeRune r ++ rest) := by
  intro b hb
  by_cases c1 : r < 0x80
  · rw [EncodeRune_one r c1] at hb
    simp only [List.singleton_append, List.head?_cons, Option.mem_def, Option.some.injEq] at hb
    omega
  by_cases c2 : r ≤ 0x7FF
  · rw [EncodeRune_two r (by omega)] at hb
    simp only [List.cons_append, List.head?_cons, Option.mem_def, Option.some.injEq] at hb
    omega
  · rw [EncodeRune_three r (by omega) hs] at hb
    simp only [List.cons_append, List.head?_cons, Option.mem_def, Option.some.injEq] at hb
    omega

theorem encodeRunes_nil : encodeRunes [] = [] := rfl

theorem encodeRunes_cons (r : Nat) (rs : List Nat) :
    encodeRunes (r :: rs) = EncodeRune r ++ encodeRunes rs := by
  simp [encodeRunes]

theorem encodeRunes_append (xs ys : List Nat) :
    encodeRunes (xs ++ ys) = encodeRunes xs ++ encodeRunes ys := by
  simp [encodeRunes]

theorem encodeRunes_head (post : List Nat) (h : ∀ r ∈ post, IsSpace r = true) :
    NoContinuationHead (encodeRunes post) := by
  match post, h with
  | [], _ =>
    intro b hb
    simp [encodeRunes_nil] at hb
  | r :: rs, h =>
    rw [encodeRunes_cons]
    have hb := IsSpace_bound r (h r (by simp))
    exact EncodeRune_head r _ hb.1 hb.2


/-! ## Facts about `utf8.DecodeLastRune` -/

theorem backToRuneStart_le (p : GoString) (lim n : Nat) : backToRuneStart p lim n ≤ n - 1 := by
  induction n with
  | zero => simp [backToRuneStart]
  | succ k ih =>
    unfold backToRuneStart
    split_ifs
    · simp
    · have := ih
      omega
    · simp

theorem DecodeLastRune_nil : DecodeLastRune [] = (RuneError, 0) := rfl

theorem DecodeLastRune_ascii (p : GoString) (hne : p ≠ [])
    (h : p.getD (p.length - 1) 0 < 0x80) : DecodeLastRune p = (p.getD (p.length - 1) 0, 1) := by
  have hl : p.length ≠ 0 := by simpa using hne
  simp only [DecodeLastRune, if_neg hl, RuneSelf, if_pos h]

theorem DecodeLastRune_multi (p : GoString) (hne : p ≠ [])
    (h : ¬ p.getD (p.length - 1) 0 < 0x80) :
    DecodeLastRune p =
      if backToRuneStart p (p.length - 4) (p.length - 1)
            + (DecodeRune (p.drop (backToRuneStart p (p.length - 4) (p.length - 1)))).2
          ≠ p.length
      then (RuneError, 1)
      else DecodeRune (p.drop (backToRuneStart p (p.length - 4) (p.length - 1))) := by
  have hl : p.length ≠ 0 := by simpa using hne
  simp only [DecodeLastRune, if_neg hl, RuneSelf, if_neg h, UTFMax]

theorem DecodeLastRune_of_start (p : GoString) (start r w : Nat) (hne : p ≠ [])
    (h : ¬ p.getD (p.length - 1) 0 < 0x80)
    (hst : backToRuneStart p (p.length - 4) (p.length - 1) = start)
    (hdec : DecodeRune (p.drop start) = (r, w)) (hw : start + w = p.length) :
    DecodeLastRune p = (r, w) := by
  rw [DecodeLastRune_multi p hne h, hst, hdec]
  simp only [ne_eq, hw, not_true_eq_false, if_false]

theorem backToRuneStart_succ (p : GoString) (lim start : Nat) :
    backToRuneStart p lim (start + 1) =
      if start ≥ lim then
        if RuneStart (p.getD start 0) then start else backToRuneStart p lim start
      else start := rfl

theorem take_append_getD (p : GoString) (hne : p ≠ []) :
    p = p.take (p.length - 1) ++ [p.getD (p.length - 1) 0] := by
  have hl : 0 < p.length := List.length_pos.mpr hne
  have h1 : p.drop (p.length - 1) = [p.getD (p.length - 1) 0] := by
    rw [List.drop_eq_getElem_cons (by omega : p.length - 1 < p.length)]
    rw [List.getD_eq_getElem _ _ (by omega : p.length - 1 < p.length)]
    have : p.length - 1 + 1 = p.length := by omega
    rw [this, List.drop_length]
  conv_lhs => rw [← List.take_append_drop (p.length - 1) p, h1]

/-- A suffix that `DecodeLastRune` reads as a space rune is that rune's encoding. -/
theorem DecodeLastRune_space_inv (p : GoString) (r w : Nat) (h : DecodeLastRune p = (r, w))
    (hs : IsSpace r = true) : ∃ q, p = q ++ EncodeRune r ∧ w = (EncodeRune r).length := by
  by_cases hne : p = []
  · subst hne
    rw [DecodeLastRune_nil] at h
    simp only [Prod.mk.injEq] at h
    rw [← h.1, IsSpace_RuneError] at hs
    exact absurd hs (by decide)
  by_cases ha : p.getD (p.length - 1) 0 < 0x80
  · rw [DecodeLastRune_ascii p hne ha] at h
    simp only [Prod.mk.injEq] at h
    obtain ⟨h1, h2⟩ := h
    refine ⟨p.take (p.length - 1), ?_, ?_⟩
    · rw [EncodeRune_one r (by omega), ← h1]
      exact take_append_getD p hne
    · rw [EncodeRune_one r (by omega)]
      simp [← h2]
  · rw [DecodeLastRune_multi p hne ha] at h
    split_ifs at h with hc
    · simp only [Prod.mk.injEq] at h
      rw [← h.1, IsSpace_RuneError] at hs
      exact absurd hs (by decide)
    · obtain ⟨rest, h1, h2⟩ := DecodeRune_space_inv _ r w h hs
      rw [h] at hc
      simp only [ne_eq, Decidable.not_not] at hc
      have hlen := congrArg List.length h1
      simp only [List.length_drop, List.length_append] at hlen
      have hrest : rest = [] := by
        apply List.eq_nil_of_length_eq_zero
        omega
      subst hrest
      refine ⟨p.take (backToRuneStart p (p.length - 4) (p.length - 1)), ?_, h2⟩
      rw [List.append_nil] at h1
      rw [← h1, List.take_append_drop]

set_option maxRecDepth 100000 in
theorem RuneStart_table : ∀ b, b < 256 → RuneStart b = decide (b < 0x80 ∨ 0xC0 ≤ b) := by
  decide

theorem RuneStart_lead (b : Nat) (h : 0xC0 ≤ b ∧ b < 256) : RuneStart b = true := by
  rw [RuneStart_table b h.2]
  simp only [decide_eq_true_eq]
  omega

theorem RuneStart_continuation (b : Nat) (h : 0x80 ≤ b ∧ b < 0xC0) : RuneStart b = false := by
  rw [RuneStart_table b (by omega)]
  simp only [decide_eq_false_iff_not]
  omega

/-- After any bytes `q`, `DecodeLastRune` reads the encoding of a space rune back. -/
theorem DecodeLastRune_space (q : GoString) (r : Nat) (hs : IsSpace r = true) :
    DecodeLastRune (q ++ EncodeRune r) = (r, (EncodeRune r).length) := by
  have hb := IsSpace_bound r hs
  have hdec := DecodeRune_space r [] hs
  rw [List.append_nil] at hdec
  by_cases c1 : r < 0x80
  · rw [EncodeRune_one r c1]
    have hne : q ++ [r] ≠ [] := by simp
    have hl : (q ++ [r]).getD ((q ++ [r]).length - 1) 0 = r := by simp
    rw [DecodeLastRune_ascii _ hne (by rw [hl]; exact c1), hl]
    rfl
  by_cases c2 : r ≤ 0x7FF
  · rw [EncodeRune_two r (by omega)] at hdec ⊢
    generalize hch : [0xC0 + r / 64, 0x80 + r % 64] = ch at hdec ⊢
    have hne : q ++ ch ≠ [] := by simp [← hch]
    have hlen : (q ++ ch).length = q.length + 2 := by simp [← hch]
    have hcl : ch.length = 2 := by simp [← hch]
    have hl : (q ++ ch).getD (q.length + 1) 0 = 0x80 + r % 64 := by
      rw [List.getD_append_right _ _ _ _ (by omega), ← hch]
      simp
    have hl0 : (q ++ ch).getD q.length 0 = 0xC0 + r / 64 := by
      rw [List.getD_append_right _ _ _ _ (by omega), ← hch]
      simp
    have e1 : q.length + 2 - 1 = q.length + 1 := rfl
    apply DecodeLastRune_of_start _ q.length _ _ hne
    · rw [hlen, e1, hl]
      omega
    · rw [hlen, e1, backToRuneStart_succ, if_pos (by omega), hl0, RuneStart_lead _ (by omega)]
      rfl
    · rw [List.drop_left, hdec]
    · rw [hlen, hcl]
  · rw [EncodeRune_three r (by omega) hb.2] at hdec ⊢
    generalize hch : [0xE0 + r / 4096, 0x80 + r / 64 % 64, 0x80 + r % 64] = ch at hdec ⊢
    have hne : q ++ ch ≠ [] := by simp [← hch]
    have hlen : (q ++ ch).length = q.length + 3 := by simp [← hch]
    have hcl : ch.length = 3 := by simp [← hch]
    have hl : (q ++ ch).getD (q.length + 2) 0 = 0x80 + r % 64 := by
      rw [List.getD_append_right _ _ _ _ (by omega), ← hch]
      simp
    have hl1 : (q ++ ch).getD (q.length + 1) 0 = 0x80 + r / 64 % 64 := by
      rw [List.getD_append_right _ _ _ _ (by omega), ← hch]
      simp
    have hl0 : (q ++ ch).getD q.length 0 = 0xE0 + r / 4096 := by
      rw [List.getD_append_right _ _ _ _ (by omega), ← hch]
      simp
    have e1 : q.length + 3 - 1 = q.length + 2 := rfl
    apply DecodeLastRune_of_start _ q.length _ _ hne
    · rw [hlen, e1, hl]
      omega
    · rw [hlen, e1, backToRuneStart_succ, if_pos (by omega), hl1,
        RuneStart_continuation _ (by omega)]
      simp only [Bool.false_eq_true, if_false]
      rw [backToRuneStart_succ, if_pos (by omega), hl0, RuneStart_lead _ (by omega)]
      rfl
    · rw [List.drop_left, hdec]
    · rw [hlen, hcl]


/-! ## `bytes.TrimLeftFunc` and `bytes.TrimRightFunc` with `unicode.IsSpace` -/

theorem AllSpace_nil : AllSpace [] := by
  intro r hr
  simp at hr

theorem AllSpace_append (xs ys : List Nat) (hx : AllSpace xs) (hy : AllSpace ys) :
    AllSpace (xs ++ ys) := by
  intro r hr
  rcases List.mem_append.mp hr with h | h
  · exact hx r h
  · exact hy r h

theorem AllSpace_singleton (r : Nat) (h : IsSpace r = true) : AllSpace [r] := by
  intro x hx
  simp only [List.mem_singleton] at hx
  rw [hx]
  exact h

theorem drop_eq_getD_cons (s : GoString) (k : Nat) (h : k < s.length) :
    s.drop k = s.getD k 0 :: s.drop (k + 1) := by
  rw [List.drop_eq_getElem_cons h, List.getD_eq_getElem _ _ h]

/-- The rune read by one round of `indexFunc` is `DecodeRune` of the rest: the ASCII
shortcut agrees with the decoder. -/
theorem indexFunc_step (s : GoString) (start : Nat) (h : start < s.length) :
    (if s.getD start 0 ≥ RuneSelf then DecodeRune (s.drop start) else (s.getD start 0, 1))
      = DecodeRune (s.drop start) := by
  split_ifs with hc
  · rfl
  · rw [drop_eq_getD_cons s start h, DecodeRune_ascii _ _ (by unfold RuneSelf at hc; omega)]

theorem indexFuncLoop_spec (s : GoString) (fuel : Nat) :
    ∀ (start : Nat) (pre : List Nat), start ≤ s.length → s.length - start < fuel →
      s.take start = encodeRunes pre → AllSpace pre →
      ∃ pre', AllSpace pre' ∧
        ((indexFuncLoop s IsSpace false fuel start = -1 ∧ s = encodeRunes pre') ∨
          (∃ k : Nat, indexFuncLoop s IsSpace false fuel start = (k : Int) ∧ k < s.length
            ∧ s.take k = encodeRunes pre' ∧ IsSpace (DecodeRune (s.drop k)).1 = false)) := by
  induction fuel with
  | zero =>
    intro start pre _ h2
    omega
  | succ fuel ih =>
    intro start pre h1 h2 h3 h4
    unfold indexFuncLoop
    by_cases hlt : start < s.length
    · rw [if_pos hlt]
      simp only [indexFunc_step s start hlt]
      rcases hd : DecodeRune (s.drop start) with ⟨r, wid⟩
      simp only
      by_cases hsp : IsSpace r = true
      · -- a space: the loop goes on after its encoding
        obtain ⟨rest, hr1, hr2⟩ := DecodeRune_space_inv _ r wid hd hsp
        have hlen := congrArg List.length hr1
        simp only [List.length_drop, List.length_append] at hlen
        have hpos := EncodeRune_length_pos r
        have htake : s.take (start + wid) = encodeRunes (pre ++ [r]) := by
          rw [encodeRunes_append, ← h3, encodeRunes_cons, encodeRunes_nil, List.append_nil]
          rw [List.take_add, hr1, hr2, List.take_left]
        have := ih (start + wid) (pre ++ [r]) (by omega) (by omega) htake
          (AllSpace_append _ _ h4 (AllSpace_singleton r hsp))
        simpa [hsp] using this
      · -- the first rune that is not a space
        have hsp' : IsSpace r = false := by simpa using hsp
        refine ⟨pre, h4, Or.inr ⟨start, ?_, hlt, h3, ?_⟩⟩
        · simp [hsp']
        · rw [hd]
          exact hsp'
    · rw [if_neg hlt]
      refine ⟨pre, h4, Or.inl ⟨rfl, ?_⟩⟩
      rw [← h3, List.take_of_length_le (by omega)]

/-- What `TrimLeftFunc(s, unicode.IsSpace)` returns: `s` without a leading run of encoded
space runes, and what is left is empty or starts with a rune that is not a space. -/
theorem TrimLeftFunc_spec (s : GoString) :
    ∃ pre, AllSpace pre ∧ s = encodeRunes pre ++ TrimLeftFunc s IsSpace
      ∧ (TrimLeftFunc s IsSpace = []
          ∨ IsSpace (DecodeRune (TrimLeftFunc s IsSpace)).1 = false) := by
  obtain ⟨pre, hpre, h⟩ := indexFuncLoop_spec s (s.length + 1) 0 [] (by omega) (by omega)
    (by simp [encodeRunes_nil]) AllSpace_nil
  refine ⟨pre, hpre, ?_⟩
  unfold TrimLeftFunc indexFunc
  rcases h with ⟨h1, h2⟩ | ⟨k, h1, h2, h3, h4⟩
  · rw [h1]
    simp only [if_true, List.append_nil]
    exact ⟨h2, Or.inl trivial⟩
  · rw [h1]
    have hk : ¬ ((k : Int) = -1) := by omega
    simp only [if_neg hk, Int.toNat_ofNat]
    refine ⟨?_, Or.inr h4⟩
    rw [← h3, List.take_append_drop]


theorem getD_take (s : GoString) (j k : Nat) (h : k < j) (hj : j ≤ s.length) :
    (s.take j).getD k 0 = s.getD k 0 := by
  rw [List.getD_eq_getElem _ _ (by rw [List.length_take]; omega),
    List.getD_eq_getElem _ _ (by omega), List.getElem_take]

/-- The rune read by one round of `lastIndexFunc` is `DecodeLastRune` of what is left. -/
theorem lastIndexFunc_step (s : GoString) (i : Nat) (h : 0 < i) (hi : i ≤ s.length) :
    (if s.getD (i - 1) 0 ≥ RuneSelf then DecodeLastRune (s.take i) else (s.getD (i - 1) 0, 1))
      = DecodeLastRune (s.take i) := by
  split_ifs with hc
  · rfl
  · have hne : s.take i ≠ [] := by
      intro h0
      have := congrArg List.length h0
      simp only [List.length_take, List.length_nil] at this
      omega
    have hl : (s.take i).length = i := by rw [List.length_take]; omega
    have hg : (s.take i).getD ((s.take i).length - 1) 0 = s.getD (i - 1) 0 := by
      rw [hl, getD_take s i (i - 1) (by omega) hi]
    rw [DecodeLastRune_ascii _ hne (by rw [hg]; unfold RuneSelf at hc; omega), hg]

/-- The width reported by `DecodeLastRune` is at least one and at most the length. -/
theorem DecodeLastRune_width (p : GoString) (hne : p ≠ []) :
    1 ≤ (DecodeLastRune p).2 ∧ (DecodeLastRune p).2 ≤ p.length := by
  have hl : 0 < p.length := List.length_pos.mpr hne
  by_cases ha : p.getD (p.length - 1) 0 < 0x80
  · rw [DecodeLastRune_ascii p hne ha]
    exact ⟨le_refl 1, hl⟩
  · rw [DecodeLastRune_multi p hne ha]
    split_ifs with hc
    · exact ⟨le_refl 1, hl⟩
    · simp only [ne_eq, Decidable.not_not] at hc
      have hle := backToRuneStart_le p (p.length - 4) (p.length - 1)
      have hne2 : p.drop (backToRuneStart p (p.length - 4) (p.length - 1)) ≠ [] := by
        intro h0
        have := congrArg List.length h0
        simp only [List.length_drop, List.length_nil] at this
        omega
      have := DecodeRune_width_pos _ hne2
      omega

theorem drop_take_append (s : GoString) (a j : Nat) (h : a ≤ j) (hj : j ≤ s.length) :
    s.drop a = (s.take j).drop a ++ s.drop j := by
  conv_lhs => rw [← List.take_append_drop j s]
  rw [List.drop_append_of_le_length]
  rw [List.length_take]
  omega

/-- The index arithmetic at the end of `TrimRightFunc`: from the start of the last rune
that is not a space it steps forward to where the trailing spaces begin. -/
theorem TrimRightFunc_index (s : GoString) (j r size : Nat) (post : List Nat)
    (h0 : 0 < j) (hj : j ≤ s.length) (hpost : s.drop j = encodeRunes post)
    (hsp : AllSpace post) (hd : DecodeLastRune (s.take j) = (r, size)) :
    (if s.getD (j - size) 0 ≥ RuneSelf then j - size + (DecodeRune (s.drop (j - size))).2
      else j - size + 1) = j := by
  have hne : s.take j ≠ [] := by
    intro h0
    have := congrArg List.length h0
    simp only [List.length_take, List.length_nil] at this
    omega
  have hl : (s.take j).length = j := by rw [List.length_take]; omega
  have hg : (s.take j).getD ((s.take j).length - 1) 0 = s.getD (j - 1) 0 := by
    rw [hl, getD_take s j (j - 1) (by omega) hj]
  -- a lone non-ASCII byte right before the trailing spaces has width one
  have lone : ¬ s.getD (j - 1) 0 < 0x80 → (DecodeRune (s.drop (j - 1))).2 = 1 := by
    intro hc
    rw [drop_eq_getD_cons s (j - 1) (by omega)]
    have e : j - 1 + 1 = j := by omega
    rw [e, hpost, DecodeRune_lone _ _ (by omega) (encodeRunes_head post hsp)]
  by_cases ha : s.getD (j - 1) 0 < 0x80
  · rw [DecodeLastRune_ascii _ hne (by rw [hg]; exact ha)] at hd
    simp only [Prod.mk.injEq] at hd
    rw [← hd.2, if_neg (by unfold RuneSelf; omega)]
    omega
  · have hw := DecodeLastRune_width _ hne
    rw [hd, hl] at hw
    simp only at hw
    by_cases h1 : size = 1
    · subst h1
      rw [if_pos (by unfold RuneSelf; omega), lone ha]
      omega
    · rw [DecodeLastRune_multi _ hne (by rw [hg]; exact ha)] at hd
      split_ifs at hd with hc
      · simp only [Prod.mk.injEq] at hd
        omega
      · simp only [ne_eq, Decidable.not_not] at hc
        rw [hd, hl] at hc
        simp only at hc
        have hst : backToRuneStart (s.take j) (j - 4) (j - 1) = j - size := by
          rw [hl] at hd
          omega
        rw [hl, hst] at hd
        have happ := DecodeRune_append _ (s.drop j) r size hd (by omega)
        rw [← drop_take_append s (j - size) j (by omega) hj] at happ
        have hhead : s.getD (j - size) 0 = ((s.take j).drop (j - size)).headD 0 := by
          rw [drop_eq_getD_cons _ _ (by rw [hl]; omega), List.headD_cons,
            getD_take s j _ (by omega) hj]
        rw [hhead, if_pos (by unfold RuneSelf; exact happ.2), happ.1]
        simp only
        omega

theorem lastIndexFuncLoop_spec (s : GoString) (fuel : Nat) :
    ∀ (i : Nat) (post : List Nat), i ≤ s.length → i < fuel →
      s.drop i = encodeRunes post → AllSpace post →
      ∃ post', AllSpace post' ∧
        ((lastIndexFuncLoop s IsSpace false fuel i = -1 ∧ s = encodeRunes post') ∨
          (∃ j r size : Nat, lastIndexFuncLoop s IsSpace false fuel i = ((j - size : Nat) : Int)
            ∧ 0 < j ∧ j ≤ s.length ∧ s.drop j = encodeRunes post'
            ∧ DecodeLastRune (s.take j) = (r, size) ∧ IsSpace r = false)) := by
  induction fuel with
  | zero =>
    intro i post _ h2
    omega
  | succ fuel ih =>
    intro i post h1 h2 h3 h4
    unfold lastIndexFuncLoop
    by_cases hlt : i > 0
    · rw [if_pos hlt]
      simp only [lastIndexFunc_step s i hlt h1]
      rcases hd : DecodeLastRune (s.take i) with ⟨r, size⟩
      simp only
      by_cases hsp : IsSpace r = true
      · obtain ⟨q, hq1, hq2⟩ := DecodeLastRune_space_inv _ r size hd hsp
        have hlen := congrArg List.length hq1
        simp only [List.length_take, List.length_append] at hlen
        have hpos := EncodeRune_length_pos r
        have hql : q.length = i - size := by omega
        have hdrop : s.drop (i - size) = encodeRunes (r :: post) := by
          rw [encodeRunes_cons, ← h3, drop_take_append s (i - size) i (by omega) h1, hq1, ← hql,
            List.drop_left]
        have := ih (i - size) (r :: post) (by omega) (by omega) hdrop (by
          intro x hx
          rcases List.mem_cons.mp hx with h | h
          · rw [h]; exact hsp
          · exact h4 x h)
        simpa [hsp] using this
      · have hsp' : IsSpace r = false := by simpa using hsp
        refine ⟨post, h4, Or.inr ⟨i, r, size, ?_, hlt, h1, h3, hd, hsp'⟩⟩
        simp [hsp']
    · rw [if_neg hlt]
      refine ⟨post, h4, Or.inl ⟨rfl, ?_⟩⟩
      have : i = 0 := by omega
      subst this
      simpa using h3

/-- What `TrimRightFunc(s, unicode.IsSpace)` returns: `s` without a trailing run of
encoded space runes, and what is left is empty or ends with a rune that is not a space. -/
theorem TrimRightFunc_spec (s : GoString) :
    ∃ post, AllSpace post ∧ s = TrimRightFunc s IsSpace ++ encodeRunes post
      ∧ (TrimRightFunc s IsSpace = []
          ∨ IsSpace (DecodeLastRune (TrimRightFunc s IsSpace)).1 = false) := by
  obtain ⟨post, hpost, h⟩ := lastIndexFuncLoop_spec s (s.length + 1) s.length []
    (by omega) (by omega) (by simp [encodeRunes_nil]) AllSpace_nil
  refine ⟨post, hpost, ?_⟩
  unfold TrimRightFunc lastIndexFunc
  rcases h with ⟨h1, h2⟩ | ⟨j, r, size, h1, h2, h3, h4, h5, h6⟩
  · rw [h1]
    simp only [ge_iff_le, Left.nonneg_neg_iff, Int.reduceLE, false_and, if_false, Int.reduceNeg,
      neg_add_cancel, Int.toNat_zero, List.take_zero, List.nil_append]
    exact ⟨h2, Or.inl trivial⟩
  · rw [h1]
    have hidx := TrimRightFunc_index s j r size post h2 h3 h4 hpost h5
    have e : (if ((j - size : Nat) : Int) ≥ 0 ∧ s.getD ((j - size : Nat) : Int).toNat 0 ≥ RuneSelf
        then ((j - size : Nat) : Int)
          + ((DecodeRune (s.drop ((j - size : Nat) : Int).toNat)).2 : Int)
        else ((j - size : Nat) : Int) + 1) = (j : Int) := by
      rw [Int.toNat_ofNat]
      by_cases hc : s.getD (j - size) 0 ≥ RuneSelf
      · rw [if_pos ⟨Int.ofNat_nonneg _, hc⟩]
        rw [if_pos hc] at hidx
        exact_mod_cast hidx
      · rw [if_neg (fun h => hc h.2)]
        rw [if_neg hc] at hidx
        exact_mod_cast hidx
    simp only
    rw [e, Int.toNat_ofNat]
    refine ⟨?_, Or.inr ?_⟩
    · rw [← h4, List.take_append_drop]
    · rw [h5]
      exact h6

theorem not_StartsWithSpace_nil : ¬ StartsWithSpace [] := by
  rintro ⟨r, _, hp⟩
  have h1 := List.IsPrefix.length_le hp
  have h2 := EncodeRune_length_pos r
  simp only [List.length_nil] at h1
  omega

theorem not_EndsWithSpace_nil : ¬ EndsWithSpace [] := by
  rintro ⟨r, _, hp⟩
  have h1 := List.IsSuffix.length_le hp
  have h2 := EncodeRune_length_pos r
  simp only [List.length_nil] at h1
  omega

theorem not_StartsWithSpace_of_decode (t : GoString)
    (h : IsSpace (DecodeRune t).1 = false) : ¬ StartsWithSpace t := by
  rintro ⟨r, hr, rest, hp⟩
  rw [← hp, DecodeRune_space r rest hr] at h
  simp only [hr] at h
  exact absurd h (by decide)

theorem not_EndsWithSpace_of_decode (t : GoString)
    (h : IsSpace (DecodeLastRune t).1 = false) : ¬ EndsWithSpace t := by
  rintro ⟨r, hr, q, hp⟩
  rw [← hp, DecodeLastRune_space q r hr] at h
  simp only [hr] at h
  exact absurd h (by decide)

theorem StartsWithSpace_mono (u v : GoString) (h : StartsWithSpace u) :
    StartsWithSpace (u ++ v) := by
  obtain ⟨r, hr, hp⟩ := h
  exact ⟨r, hr, hp.trans (List.prefix_append u v)⟩

/-- What `TrimFunc(s, unicode.IsSpace)` returns. -/
theorem TrimFunc_spec (s : GoString) : IsTrimOf s (TrimFunc s IsSpace) := by
  obtain ⟨pre, hpre, h1, h2⟩ := TrimLeftFunc_spec s
  obtain ⟨post, hpost, h3, h4⟩ := TrimRightFunc_spec (TrimLeftFunc s IsSpace)
  unfold TrimFunc
  refine ⟨⟨pre, post, hpre, hpost, ?_⟩, ?_, ?_⟩
  · rw [List.append_assoc, ← h3]
    exact h1
  · intro hs
    have hs2 := StartsWithSpace_mono _ (encodeRunes post) hs
    rw [← h3] at hs2
    rcases h2 with h2 | h2
    · rw [h2] at hs2
      exact not_StartsWithSpace_nil hs2
    · exact not_StartsWithSpace_of_decode _ h2 hs2
  · rcases h4 with h4 | h4
    · rw [h4]
      exact not_EndsWithSpace_nil
    · exact not_EndsWithSpace_of_decode _ h4

theorem IsSpace_of_asciiSpace (c : Nat) (hc : ¬ c ≥ RuneSelf) (h : ¬ asciiSpace c = 0) :
    IsSpace c = true ∧ EncodeRune c = [c] := by
  unfold RuneSelf at hc
  exact ⟨(IsSpace_ascii c (by omega)).mpr h, EncodeRune_one c (by omega)⟩

theorem trimSpaceStop_spec (c : Nat) (cs : GoString) (hc : ¬ c ≥ RuneSelf)
    (hns : asciiSpace c = 0) (n : Nat) :
    n ≤ (c :: cs).length → IsTrimOf ((c :: cs).take n) (trimSpaceStop (c :: cs) n) := by
  induction n with
  | zero =>
    intro _
    refine ⟨⟨[], [], AllSpace_nil, AllSpace_nil, ?_⟩, not_StartsWithSpace_nil,
      not_EndsWithSpace_nil⟩
    simp [trimSpaceStop, encodeRunes_nil]
  | succ n ih =>
    intro hn
    unfold trimSpaceStop
    simp only
    split_ifs with h1 h2
    · exact TrimFunc_spec _
    · -- an ASCII byte that is not a space ends the result
      refine ⟨⟨[], [], AllSpace_nil, AllSpace_nil, by simp [encodeRunes_nil]⟩, ?_, ?_⟩
      · apply not_StartsWithSpace_of_decode
        rw [List.take_succ_cons, DecodeRune_ascii _ _ (by unfold RuneSelf at hc; omega)]
        have := (IsSpace_ascii c (by unfold RuneSelf at hc; omega)).not.mpr (by simpa using hns)
        simpa using this
      · apply not_EndsWithSpace_of_decode
        have hne : (c :: cs).take (n + 1) ≠ [] := by simp
        have hl : ((c :: cs).take (n + 1)).length = n + 1 := by
          rw [List.length_take]; omega
        have hg : ((c :: cs).take (n + 1)).getD (((c :: cs).take (n + 1)).length - 1) 0
            = (c :: cs).getD n 0 := by
          rw [hl]
          exact getD_take (c :: cs) (n + 1) n (by omega) hn
        rw [DecodeLastRune_ascii _ hne (by rw [hg]; unfold RuneSelf at h1; omega), hg]
        have := (IsSpace_ascii ((c :: cs).getD n 0) (by unfold RuneSelf at h1; omega)).not.mpr
          (by simpa using h2)
        simpa using this
    · -- an ASCII space: dropped, the loop goes on
      obtain ⟨⟨pre, post, hpre, hpost, heq⟩, hs, he⟩ := ih (by omega)
      obtain ⟨hsp, henc⟩ := IsSpace_of_asciiSpace _ h1 h2
      refine ⟨⟨pre, post ++ [(c :: cs).getD n 0], hpre,
        AllSpace_append _ _ hpost (AllSpace_singleton _ hsp), ?_⟩, hs, he⟩
      rw [encodeRunes_append, encodeRunes_cons, encodeRunes_nil, List.append_nil, henc,
        ← List.append_assoc, ← heq]
      rw [List.take_succ, List.getD_eq_getElem?_getD, List.getElem?_eq_getElem (by omega)]
      simp

theorem trimSpaceStart_spec (s : GoString) : IsTrimOf s (trimSpaceStart s) := by
  induction s with
  | nil =>
    refine ⟨⟨[], [], AllSpace_nil, AllSpace_nil, ?_⟩, not_StartsWithSpace_nil,
      not_EndsWithSpace_nil⟩
    simp [trimSpaceStart, trimSpaceStop, encodeRunes_nil]
  | cons c cs ih =>
    unfold trimSpaceStart
    split_ifs with h1 h2
    · exact TrimFunc_spec _
    · have := trimSpaceStop_spec c cs h1 h2 (c :: cs).length (le_refl _)
      rwa [List.take_length] at this
    · obtain ⟨⟨pre, post, hpre, hpost, heq⟩, hs, he⟩ := ih
      obtain ⟨hsp, henc⟩ := IsSpace_of_asciiSpace _ h1 h2
      refine ⟨⟨c :: pre, post, ?_, hpost, ?_⟩, hs, he⟩
      · intro x hx
        rcases List.mem_cons.mp hx with h | h
        · rw [h]; exact hsp
        · exact hpre x h
      · rw [encodeRunes_cons, henc]
        simp only [List.singleton_append, List.cons_append]
        exact congrArg (List.cons c) heq

/-- What `bytes.TrimSpace` returns. -/
theorem TrimSpace_spec (s : GoString) : IsTrimOf s (TrimSpace s) := trimSpaceStart_spec s

/-! ## The trimmed result is unique -/

/-- Every byte of the encoding of a space rune after the first is a continuation byte. -/
theorem EncodeRune_split (r : Nat) (a c : GoString) (hs : IsSpace r = true)
    (h : EncodeRune r = a ++ c) (ha : a ≠ []) (hc : c ≠ []) :
    ∃ x, c.head? = some x ∧ 0x80 ≤ x ∧ x ≤ 0xBF := by
  have hb := IsSpace_bound r hs
  by_cases c1 : r < 0x80
  · rw [EncodeRune_one r c1] at h
    have hl := congrArg List.length h
    simp only [List.length_cons, List.length_nil, List.length_append] at hl
    have h1 : 0 < a.length := List.length_pos.mpr ha
    have h2 : 0 < c.length := List.length_pos.mpr hc
    omega
  by_cases c2 : r ≤ 0x7FF
  · rw [EncodeRune_two r (by omega)] at h
    match a, c, ha, hc with
    | [a0], [c0], _, _ =>
      simp only [List.cons_append, List.nil_append, List.cons.injEq, and_true] at h
      exact ⟨c0, rfl, by omega, by omega⟩
    | [a0], c0 :: c1 :: cs, _, _ => simp at h
    | a0 :: a1 :: as, c0 :: cs, _, _ => simp at h
  · rw [EncodeRune_three r (by omega) hb.2] at h
    match a, c, ha, hc with
    | [a0], [c0], _, _ => simp at h
    | [a0], [c0, c1], _, _ =>
      simp only [List.cons_append, List.nil_append, List.cons.injEq, and_true] at h
      exact ⟨c0, rfl, by omega, by omega⟩
    | [a0], c0 :: c1 :: c2 :: cs, _, _ => simp at h
    | [a0, a1], [c0], _, _ =>
      simp only [List.cons_append, List.nil_append, List.cons.injEq, and_true] at h
      exact ⟨c0, rfl, by omega, by omega⟩
    | [a0, a1], c0 :: c1 :: cs, _, _ => simp at h
    | a0 :: a1 :: a2 :: as, c0 :: cs, _, _ => simp at h

/-- Bytes that do not start with a space still do not after encoded spaces are
appended, unless they are empty. -/
theorem not_StartsWithSpace_append (a : GoString) (post : List Nat) (ha : a ≠ [])
    (hs : ¬ StartsWithSpace a) (hpost : AllSpace post) :
    ¬ StartsWithSpace (a ++ encodeRunes post) := by
  rintro ⟨r, hr, rest, h⟩
  rcases List.append_eq_append_iff.mp h with ⟨c, h1, h2⟩ | ⟨c, h1, h2⟩
  · -- a = EncodeRune r ++ c
    exact hs ⟨r, hr, c, h1.symm⟩
  · -- EncodeRune r = a ++ c
    by_cases hc : c = []
    · subst hc
      rw [List.append_nil] at h1
      exact hs ⟨r, hr, [], by rw [List.append_nil, h1]⟩
    · obtain ⟨x, hx, hx1, hx2⟩ := EncodeRune_split r a c hr h1 ha hc
      have hh := encodeRunes_head post hpost x (by
        rw [h2, List.head?_append_of_ne_nil _ hc]
        exact hx)
      omega

/-- Two ways of splitting off leading encoded spaces, each leaving something that does
not start with a space, are the same. -/
theorem leading_unique (pre1 : List Nat) :
    ∀ (pre2 : List Nat) (t1 t2 : GoString), AllSpace pre1 → AllSpace pre2 →
      ¬ StartsWithSpace t1 → ¬ StartsWithSpace t2 →
      encodeRunes pre1 ++ t1 = encodeRunes pre2 ++ t2 → t1 = t2 := by
  induction pre1 with
  | nil =>
    intro pre2 t1 t2 _ h2 hs1 _ h
    match pre2, h2 with
    | [], _ => simpa [encodeRunes_nil] using h
    | r :: rs, h2 =>
      exfalso
      rw [encodeRunes_nil, List.nil_append, encodeRunes_cons, List.append_assoc] at h
      exact hs1 ⟨r, h2 r (by simp), _, h.symm⟩
  | cons r1 rs1 ih =>
    intro pre2 t1 t2 h1 h2 hs1 hs2 h
    match pre2, h2 with
    | [], _ =>
      exfalso
      rw [encodeRunes_nil, List.nil_append, encodeRunes_cons, List.append_assoc] at h
      exact hs2 ⟨r1, h1 r1 (by simp), _, h⟩
    | r2 :: rs2, h2 =>
      rw [encodeRunes_cons, encodeRunes_cons, List.append_assoc, List.append_assoc] at h
      have hr1 := h1 r1 (by simp)
      have hr2 := h2 r2 (by simp)
      have d1 := DecodeRune_space r1 (encodeRunes rs1 ++ t1) hr1
      have d2 := DecodeRune_space r2 (encodeRunes rs2 ++ t2) hr2
      rw [h, d2] at d1
      simp only [Prod.mk.injEq] at d1
      have hre : r2 = r1 := d1.1
      subst hre
      have h' := List.append_cancel_left h
      exact ih rs2 t1 t2 (fun x hx => h1 x (List.mem_cons_of_mem _ hx))
        (fun x hx => h2 x (List.mem_cons_of_mem _ hx)) hs1 hs2 h'

theorem encodeRunes_concat (rs : List Nat) (r : Nat) :
    encodeRunes (rs ++ [r]) = encodeRunes rs ++ EncodeRune r := by
  rw [encodeRunes_append, encodeRunes_cons, encodeRunes_nil, List.append_nil]

/-- Two ways of splitting off trailing encoded spaces, each leaving something that does
not end with a space, are the same. -/
theorem trailing_unique (post1 : List Nat) :
    ∀ (post2 : List Nat) (u1 u2 : GoString), AllSpace post1 → AllSpace post2 →
      ¬ EndsWithSpace u1 → ¬ EndsWithSpace u2 →
      u1 ++ encodeRunes post1 = u2 ++ encodeRunes post2 → u1 = u2 := by
  induction post1 using List.reverseRecOn with
  | nil =>
    intro post2 u1 u2 _ h2 hs1 _ h
    rcases List.eq_nil_or_concat post2 with hp | ⟨rs, r, hp⟩
    · subst hp
      simpa [encodeRunes_nil] using h
    · exfalso
      subst hp
      rw [List.concat_eq_append] at h h2
      rw [encodeRunes_nil, List.append_nil, encodeRunes_concat, ← List.append_assoc] at h
      exact hs1 ⟨r, h2 r (by simp), _, h.symm⟩
  | append_singleton rs1 r1 ih =>
    intro post2 u1 u2 h1 h2 hs1 hs2 h
    rcases List.eq_nil_or_concat post2 with hp | ⟨rs2, r2, hp⟩
    · exfalso
      subst hp
      rw [encodeRunes_nil, List.append_nil, encodeRunes_concat, ← List.append_assoc] at h
      exact hs2 ⟨r1, h1 r1 (by simp), _, h⟩
    · subst hp
      rw [List.concat_eq_append] at h h2
      rw [encodeRunes_concat, encodeRunes_concat, ← List.append_assoc, ← List.append_assoc] at h
      have hr1 := h1 r1 (by simp)
      have hr2 := h2 r2 (by simp)
      have d1 := DecodeLastRune_space (u1 ++ encodeRunes rs1) r1 hr1
      have d2 := DecodeLastRune_space (u2 ++ encodeRunes rs2) r2 hr2
      rw [h, d2] at d1
      simp only [Prod.mk.injEq] at d1
      have hre : r2 = r1 := d1.1
      subst hre
      have h' := List.append_cancel_right h
      exact ih rs2 u1 u2 (fun x hx => h1 x (List.mem_append_left _ hx))
        (fun x hx => h2 x (List.mem_append_left _ hx)) hs1 hs2 h'

/-- The trimmed result is determined by the input: two byte sequences that both are
the input without leading and trailing white space are equal. -/
theorem IsTrimOf_unique (b a1 a2 : GoString) (h1 : IsTrimOf b a1) (h2 : IsTrimOf b a2) :
    a1 = a2 := by
  obtain ⟨⟨pre1, post1, hp1, hq1, e1⟩, hs1, he1⟩ := h1
  obtain ⟨⟨pre2, post2, hp2, hq2, e2⟩, hs2, he2⟩ := h2
  rw [e1, List.append_assoc, List.append_assoc] at e2
  by_cases n1 : a1 = []
  · by_cases n2 : a2 = []
    · rw [n1, n2]
    · exfalso
      subst n1
      rw [List.nil_append, ← encodeRunes_append] at e2
      have := leading_unique (pre1 ++ post1) pre2 [] (a2 ++ encodeRunes post2)
        (AllSpace_append _ _ hp1 hq1) hp2 not_StartsWithSpace_nil
        (not_StartsWithSpace_append a2 post2 n2 hs2 hq2) (by rw [List.append_nil]; exact e2)
      exact n2 (List.append_eq_nil.mp this.symm).1
  · by_cases n2 : a2 = []
    · exfalso
      subst n2
      rw [List.nil_append, ← encodeRunes_append] at e2
      have := leading_unique pre1 (pre2 ++ post2) (a1 ++ encodeRunes post1) []
        hp1 (AllSpace_append _ _ hp2 hq2) (not_StartsWithSpace_append a1 post1 n1 hs1 hq1)
        not_StartsWithSpace_nil (by rw [List.append_nil]; exact e2)
      exact n1 (List.append_eq_nil.mp this).1
    · have hmid := leading_unique pre1 pre2 (a1 ++ encodeRunes post1) (a2 ++ encodeRunes post2)
        hp1 hp2 (not_StartsWithSpace_append a1 post1 n1 hs1 hq1)
        (not_StartsWithSpace_append a2 post2 n2 hs2 hq2) e2
      exact trailing_unique post1 post2 a1 a2 hq1 hq2 he1 he2 hmid

/-- The ASCII fast path of `bytes.TrimSpace` returns what `TrimFunc(s, unicode.IsSpace)`,
the body of `TrimSpace` in older Go releases, returns. -/
theorem TrimSpace_eq_TrimFunc (s : GoString) : TrimSpace s = TrimFunc s IsSpace :=
  IsTrimOf_unique s _ _ (TrimSpace_spec s) (TrimFunc_spec s)

/-! ## Facts about the loop of `UpdateIP` -/

theorem lit_A_ne_AAAA : lit "A" ≠ lit "AAAA" := by decide

theorem GetV4Address_eq (w : World) (f : Flags) (tr : List Event) :
    GetV4Address w f tr =
      match w.Do tr (v4Request f) with
      | .invalid => (.panic .nilDereference, tr)
      | .failed err => (.panic (.error err), tr ++ [.http (v4Request f)])
      | .response address _ => (.ret (TrimSpace address), tr ++ [.http (v4Request f)]) := rfl

theorem GetV6Address_eq (w : World) (f : Flags) (tr : List Event) :
    GetV6Address w f tr =
      match w.Do tr (v6Request f) with
      | .invalid => (.panic .nilDereference, tr)
      | .failed err => (.panic (.error err), tr ++ [.http (v6Request f)])
      | .response address _ => (.ret (TrimSpace address), tr ++ [.http (v6Request f)]) := rfl

theorem UpdateRecord_invalid (w : World) (fin : Final) (zoneID rid rty rname content : GoString)
    (tr : List Event) (h : w.Do tr (putRequest fin zoneID rid rty rname content) = .invalid) :
    UpdateRecord w fin zoneID rid rty rname content tr = (.panic .nilDereference, tr) := by
  simp only [UpdateRecord, h]

/-- When `http.NewRequest` accepts the PUT, `UpdateRecord` hands exactly that request to
`client.Do`, whatever comes back. -/
theorem UpdateRecord_trace (w : World) (fin : Final) (zoneID rid rty rname content : GoString)
    (tr : List Event) (h : w.Do tr (putRequest fin zoneID rid rty rname content) ≠ .invalid) :
    (UpdateRecord w fin zoneID rid rty rname content tr).2
      = tr ++ [.http (putRequest fin zoneID rid rty rname content)] := by
  unfold UpdateRecord
  simp only
  rcases hd : w.Do tr (putRequest fin zoneID rid rty rname content) with _ | err | ⟨body, re⟩
  · exact absurd hd h
  · rfl
  · simp only
    split_ifs
    · split <;> rfl
    · rfl

/-- When `UpdateRecord` returns (nil or an error), it made its request. -/
theorem UpdateRecord_ret (w : World) (fin : Final) (zoneID rid rty rname content : GoString)
    (tr tr2 : List Event) (o : Option GoError)
    (h : UpdateRecord w fin zoneID rid rty rname content tr = (.ret o, tr2)) :
    tr2 = tr ++ [.http (putRequest fin zoneID rid rty rname content)] := by
  by_cases hd : w.Do tr (putRequest fin zoneID rid rty rname content) = .invalid
  · rw [UpdateRecord_invalid w fin zoneID rid rty rname content tr hd] at h
    simp only [Prod.mk.injEq] at h
    exact absurd h.1 (by simp)
  · have := UpdateRecord_trace w fin zoneID rid rty rname content tr hd
    rw [h] at this
    exact this

/-- A PUT answered with `success` true: `UpdateRecord` returns nil. -/
theorem UpdateRecord_ok (w : World) (fin : Final) (zoneID rid rty rname content : GoString)
    (tr : List Event) (pbody : GoString) (pe : Option GoError)
    (h : w.Do tr (putRequest fin zoneID rid rty rname content) = .response pbody pe)
    (hs : (w.unmarshalRecordList pbody).Success = true) :
    UpdateRecord w fin zoneID rid rty rname content tr
      = (.ret none, tr ++ [.http (putRequest fin zoneID rid rty rname content)]) := by
  simp only [UpdateRecord, h, hs]
  simp

/-- A PUT that fails in transport, or is answered with `success` false and a first error:
`UpdateRecord` returns that error. -/
theorem UpdateRecord_fail (w : World) (fin : Final) (zoneID rid rty rname content : GoString)
    (tr : List Event) (err : GoError)
    (h : w.Do tr (putRequest fin zoneID rid rty rname content) = .failed err
      ∨ ∃ pbody pe e0 rest,
          w.Do tr (putRequest fin zoneID rid rty rname content) = .response pbody pe
          ∧ (w.unmarshalRecordList pbody).Success = false
          ∧ (w.unmarshalRecordList pbody).Errors = e0 :: rest
          ∧ err = Errorf e0.Code e0.Message) :
    UpdateRecord w fin zoneID rid rty rname content tr
      = (.ret (some err), tr ++ [.http (putRequest fin zoneID rid rty rname content)]) := by
  rcases h with h | ⟨pbody, pe, e0, rest, h, hs, he, herr⟩
  · simp only [UpdateRecord, h]
  · simp only [UpdateRecord, h, hs, he, herr]
    simp

/-- A record whose type matches no enabled protocol: the round does nothing. -/
theorem updateRecordStep_skip (w : World) (f : Flags) (fin : Final) (id : GoString)
    (record : Record) (tr : List Event) (h : ¬ matchesProtocol f record) :
    updateRecordStep w f fin id record tr = (.ret none, tr) := by
  unfold matchesProtocol at h
  have h1 : ¬ (record.Type_ = lit "A" ∧ f.v4 = true) := fun hh => h (Or.inl hh)
  have h2 : ¬ (record.Type_ = lit "AAAA" ∧ f.v6 = true) := fun hh => h (Or.inr hh)
  simp only [updateRecordStep, updateA, updateAAAA, if_neg h1, if_neg h2]

/-- A record whose type matches an enabled protocol: one address fetch, then
`UpdateRecord` with the trimmed answer. -/
theorem updateRecordStep_match (w : World) (f : Flags) (fin : Final) (id : GoString)
    (record : Record) (tr : List Event) (h : matchesProtocol f record) :
    updateRecordStep w f fin id record tr =
      match w.Do tr (fetchFor f record) with
      | .invalid => (.panic .nilDereference, tr)
      | .failed err => (.panic (.error err), tr ++ [.http (fetchFor f record)])
      | .response address _ =>
        UpdateRecord w fin id record.ID record.Type_ record.Name (TrimSpace address)
          (tr ++ [.http (fetchFor f record)]) := by
  rcases h with ⟨ht, hv⟩ | ⟨ht, hv⟩
  · have h2 : ¬ (record.Type_ = lit "AAAA" ∧ f.v6 = true) := by
      rw [ht]
      exact fun hh => lit_A_ne_AAAA hh.1
    have hf : fetchFor f record = v4Request f := by simp only [fetchFor, if_pos ht]
    simp only [updateRecordStep, updateA, updateAAAA, if_pos (And.intro ht hv), if_neg h2,
      GetV4Address_eq, hf]
    rcases hd : w.Do tr (v4Request f) with _ | err | ⟨address, re⟩
    · rfl
    · rfl
    · simp only
      generalize UpdateRecord w fin id record.ID record.Type_ record.Name (TrimSpace address)
        (tr ++ [.http (v4Request f)]) = res
      rcases res with ⟨out, tr2⟩
      rcases out with (_ | err) | p <;> rfl
  · have h1 : ¬ (record.Type_ = lit "A" ∧ f.v4 = true) := by
      rw [ht]
      exact fun hh => lit_A_ne_AAAA hh.1.symm
    have hne : ¬ record.Type_ = lit "A" := by
      rw [ht]
      exact fun hh => lit_A_ne_AAAA hh.symm
    have hf : fetchFor f record = v6Request f := by simp only [fetchFor, if_neg hne]
    simp only [updateRecordStep, updateA, updateAAAA, if_neg h1, if_pos (And.intro ht hv),
      GetV6Address_eq, hf]
    rcases hd : w.Do tr (v6Request f) with _ | err | ⟨address, re⟩
    · rfl
    · rfl
    · simp only

/-- The events of one round, whatever its outcome. -/
theorem updateRecordStep_events (w : World) (f : Flags) (fin : Final) (id : GoString)
    (record : Record) (tr : List Event) (h : matchesProtocol f record) :
    (updateRecordStep w f fin id record tr).2 = tr
      ∨ (updateRecordStep w f fin id record tr).2 = tr ++ [.http (fetchFor f record)]
      ∨ ∃ address, (updateRecordStep w f fin id record tr).2
          = tr ++ updateEvents f fin id record address := by
  rw [updateRecordStep_match w f fin id record tr h]
  rcases hd : w.Do tr (fetchFor f record) with _ | err | ⟨address, re⟩
  · left
    rfl
  · right
    left
    rfl
  · right
    simp only
    by_cases hp : w.Do (tr ++ [.http (fetchFor f record)])
        (putRequest fin id record.ID record.Type_ record.Name (TrimSpace address)) = .invalid
    · left
      rw [UpdateRecord_invalid _ _ _ _ _ _ _ _ hp]
    · right
      refine ⟨TrimSpace address, ?_⟩
      rw [UpdateRecord_trace _ _ _ _ _ _ _ _ hp]
      simp only [updateEvents, List.append_assoc, List.singleton_append]

/-- A round that returns (an error or nil) made both requests. -/
theorem updateRecordStep_ret (w : World) (f : Flags) (fin : Final) (id : GoString)
    (record : Record) (tr tr2 : List Event) (o : Option GoError)
    (h : matchesProtocol f record) (hs : updateRecordStep w f fin id record tr = (.ret o, tr2)) :
    ∃ address, tr2 = tr ++ updateEvents f fin id record address := by
  rw [updateRecordStep_match w f fin id record tr h] at hs
  rcases hd : w.Do tr (fetchFor f record) with _ | err | ⟨address, re⟩
  · rw [hd] at hs
    simp only [Prod.mk.injEq] at hs
    exact absurd hs.1 (by simp)
  · rw [hd] at hs
    simp only [Prod.mk.injEq] at hs
    exact absurd hs.1 (by simp)
  · rw [hd] at hs
    simp only at hs
    refine ⟨TrimSpace address, ?_⟩
    rw [UpdateRecord_ret _ _ _ _ _ _ _ _ _ _ hs]
    simp only [updateEvents, List.append_assoc, List.singleton_append]

theorem updateRecords_cons (w : World) (f : Flags) (fin : Final) (id : GoString)
    (record : Record) (rest : List Record) (tr : List Event) :
    updateRecords w f fin id (record :: rest) tr =
      match updateRecordStep w f fin id record tr with
      | (.panic p, tr) => (.panic p, tr)
      | (.ret (some err), tr) => (.ret (some err), tr)
      | (.ret none, tr) => updateRecords w f fin id rest tr := rfl

/-- Records that match no enabled protocol can be dropped from the list: the loop does
the same with and without them. -/
theorem updateRecords_filter (w : World) (f : Flags) (fin : Final) (id : GoString)
    (records : List Record) :
    ∀ tr, updateRecords w f fin id records tr
      = updateRecords w f fin id (records.filter (fun r => decide (matchesProtocol f r))) tr := by
  induction records with
  | nil => intro tr; rfl
  | cons record rest ih =>
    intro tr
    by_cases hm : matchesProtocol f record
    · rw [List.filter_cons_of_pos (by simpa using hm), updateRecords_cons, updateRecords_cons]
      rcases hs : updateRecordStep w f fin id record tr with ⟨out, tr2⟩
      rcases out with (_ | err) | p
      · exact ih tr2
      · rfl
      · rfl
    · rw [List.filter_cons_of_neg (by simpa using hm), updateRecords_cons,
        updateRecordStep_skip w f fin id record tr hm]
      exact ih tr

/-- Every event of the loop is the address fetch or the PUT of a record of the list
whose type matches an enabled protocol. -/
theorem updateRecords_events (w : World) (f : Flags) (fin : Final) (id : GoString)
    (records : List Record) :
    ∀ tr, ∃ new, (updateRecords w f fin id records tr).2 = tr ++ new ∧
      ∀ ev ∈ new, ∃ record ∈ records, matchesProtocol f record ∧
        (ev = .http (fetchFor f record) ∨
          ∃ address, ev = .http (putRequest fin id record.ID record.Type_ record.Name address)) := by
  induction records with
  | nil =>
    intro tr
    exact ⟨[], by simp [updateRecords], by simp⟩
  | cons record rest ih =>
    intro tr
    by_cases hm : matchesProtocol f record
    · -- events of this round
      have hstep : ∃ new1, (updateRecordStep w f fin id record tr).2 = tr ++ new1 ∧
          ∀ ev ∈ new1, ev = .http (fetchFor f record) ∨
            ∃ address, ev = .http (putRequest fin id record.ID record.Type_ record.Name address) := by
        rcases updateRecordStep_events w f fin id record tr hm with h | h | ⟨address, h⟩
        · exact ⟨[], by rw [h, List.append_nil], by simp⟩
        · exact ⟨_, h, by simp⟩
        · refine ⟨_, h, ?_⟩
          intro ev hev
          simp only [updateEvents, List.mem_cons, List.mem_singleton, List.not_mem_nil,
            or_false] at hev
          rcases hev with h1 | h1
          · exact Or.inl h1
          · exact Or.inr ⟨address, h1⟩
      obtain ⟨new1, hn1, hev1⟩ := hstep
      rw [updateRecords_cons]
      rcases hs : updateRecordStep w f fin id record tr with ⟨out, tr2⟩
      rw [hs] at hn1
      simp only at hn1
      have here : ∀ ev ∈ new1, ∃ r ∈ record :: rest, matchesProtocol f r ∧
          (ev = .http (fetchFor f r) ∨
            ∃ address, ev = .http (putRequest fin id r.ID r.Type_ r.Name address)) :=
        fun ev hev => ⟨record, by simp, hm, hev1 ev hev⟩
      rcases out with (_ | err) | p
      · obtain ⟨new2, hn2, hev2⟩ := ih tr2
        refine ⟨new1 ++ new2, ?_, ?_⟩
        · simp only
          rw [hn2, hn1, List.append_assoc]
        · intro ev hev
          rcases List.mem_append.mp hev with h | h
          · exact here ev h
          · obtain ⟨r, hr, hrest⟩ := hev2 ev h
            exact ⟨r, List.mem_cons_of_mem _ hr, hrest⟩
      · exact ⟨new1, hn1, here⟩
      · exact ⟨new1, hn1, here⟩
    · rw [updateRecords_cons, updateRecordStep_skip w f fin id record tr hm]
      obtain ⟨new2, hn2, hev2⟩ := ih tr
      refine ⟨new2, hn2, ?_⟩
      intro ev hev
      obtain ⟨r, hr, hrest⟩ := hev2 ev hev
      exact ⟨r, List.mem_cons_of_mem _ hr, hrest⟩

/-- A list without a matching record: the loop makes no request and returns nil. -/
theorem updateRecords_none (w : World) (f : Flags) (fin : Final) (id : GoString)
    (records : List Record) (h : ∀ record ∈ records, ¬ matchesProtocol f record) :
    ∀ tr, updateRecords w f fin id records tr = (.ret none, tr) := by
  induction records with
  | nil => intro tr; rfl
  | cons record rest ih =>
    intro tr
    rw [updateRecords_cons, updateRecordStep_skip w f fin id record tr (h record (by simp))]
    exact ih (fun r hr => h r (List.mem_cons_of_mem _ hr)) tr

/-- When every round over `pre` lets the loop go on, each matching record of `pre` was
updated exactly once, in list order, and nothing else happened. -/
theorem updateRecords_ok_trace (w : World) (f : Flags) (fin : Final) (id : GoString)
    (pre : List Record) :
    ∀ tr tr1, updateRecords w f fin id pre tr = (.ret none, tr1) →
      ∃ addrs : List GoString,
        addrs.length = (pre.filter (fun r => decide (matchesProtocol f r))).length ∧
        tr1 = tr ++ ((pre.filter (fun r => decide (matchesProtocol f r))).zip addrs).flatMap
          (fun p => updateEvents f fin id p.1 p.2) := by
  induction pre with
  | nil =>
    intro tr tr1 h
    simp only [updateRecords, Prod.mk.injEq, true_and] at h
    exact ⟨[], by simp, by simp [h]⟩
  | cons record rest ih =>
    intro tr tr1 h
    by_cases hm : matchesProtocol f record
    · rw [updateRecords_cons] at h
      rcases hs : updateRecordStep w f fin id record tr with ⟨out, tr2⟩
      rw [hs] at h
      rcases out with (_ | err) | p
      · simp only at h
        obtain ⟨address, ha⟩ := updateRecordStep_ret w f fin id record tr tr2 none hm hs
        obtain ⟨addrs, hl, ht⟩ := ih tr2 tr1 h
        refine ⟨address :: addrs, ?_, ?_⟩
        · rw [List.filter_cons_of_pos (by simpa using hm)]
          simp [hl]
        · rw [List.filter_cons_of_pos (by simpa using hm), ht, ha]
          simp
      · simp only [Prod.mk.injEq] at h
        exact absurd h.1 (by simp)
      · simp only [Prod.mk.injEq] at h
        exact absurd h.1 (by simp)
    · rw [updateRecords_cons, updateRecordStep_skip w f fin id record tr hm] at h
      obtain ⟨addrs, hl, ht⟩ := ih tr tr1 h
      refine ⟨addrs, ?_, ?_⟩
      · rw [List.filter_cons_of_neg (by simpa using hm)]
        exact hl
      · rw [List.filter_cons_of_neg (by simpa using hm)]
        exact ht

/-- The loop stops at the first round that returns an error. -/
theorem updateRecords_stop (w : World) (f : Flags) (fin : Final) (id : GoString)
    (pre : List Record) (r : Record) (post : List Record) (err : GoError) :
    ∀ tr tr1 tr2, updateRecords w f fin id pre tr = (.ret none, tr1) →
      updateRecordStep w f fin id r tr1 = (.ret (some err), tr2) →
      updateRecords w f fin id (pre ++ r :: post) tr = (.ret (some err), tr2) := by
  induction pre with
  | nil =>
    intro tr tr1 tr2 h1 h2
    simp only [updateRecords, Prod.mk.injEq, true_and] at h1
    subst h1
    rw [List.nil_append, updateRecords_cons, h2]
  | cons record rest ih =>
    intro tr tr1 tr2 h1 h2
    rw [updateRecords_cons] at h1
    rw [List.cons_append, updateRecords_cons]
    rcases hs : updateRecordStep w f fin id record tr with ⟨out, tr3⟩
    rw [hs] at h1
    rcases out with (_ | e) | p
    · exact ih tr3 tr1 tr2 h1 h2
    · simp only [Prod.mk.injEq] at h1
      exact absurd h1.1 (by simp)
    · simp only [Prod.mk.injEq] at h1
      exact absurd h1.1 (by simp)

theorem UpdatesSucceed_length (w : World) (f : Flags) (fin : Final) (id : GoString)
    (ms : List Record) :
    ∀ (addrs : List GoString) (tr : List Event), UpdatesSucceed w f fin id ms addrs tr →
      addrs.length = ms.length := by
  induction ms with
  | nil =>
    intro addrs tr h
    match addrs, h with
    | [], _ => rfl
  | cons m rest ih =>
    intro addrs tr h
    match addrs, h with
    | a :: more, h =>
      simp only [List.length_cons, ih more _ h.2.2]

/-- When the world answers the fetch and the PUT of every matching record of `pre` with
success, the loop runs through `pre` and makes exactly those requests, in order. -/
theorem updateRecords_of_UpdatesSucceed (w : World) (f : Flags) (fin : Final) (id : GoString)
    (pre : List Record) :
    ∀ (addrs : List GoString) (tr : List Event),
      UpdatesSucceed w f fin id (pre.filter (fun x => decide (matchesProtocol f x))) addrs tr →
      updateRecords w f fin id pre tr
        = (.ret none,
            tr ++ ((pre.filter (fun x => decide (matchesProtocol f x))).zip addrs).flatMap
              (fun p => updateEvents f fin id p.1 p.2)) := by
  induction pre with
  | nil =>
    intro addrs tr _
    simp [updateRecords]
  | cons record rest ih =>
    intro addrs tr h
    by_cases hm : matchesProtocol f record
    · rw [List.filter_cons_of_pos (by simpa using hm)] at h ⊢
      match addrs, h with
      | a :: more, h =>
        obtain ⟨⟨body, e, hfetch, htrim⟩, ⟨pbody, pe, hput, hsucc⟩, hrest⟩ := h
        rw [updateRecords_cons, updateRecordStep_match w f fin id record tr hm, hfetch]
        simp only
        rw [htrim, UpdateRecord_ok w fin id record.ID record.Type_ record.Name a _ pbody pe hput
          hsucc]
        simp only
        have hih := ih more (tr ++ updateEvents f fin id record a) hrest
        have e1 : tr ++ [Event.http (fetchFor f record)]
            ++ [Event.http (putRequest fin id record.ID record.Type_ record.Name a)]
            = tr ++ updateEvents f fin id record a := by
          simp only [updateEvents, List.append_assoc, List.singleton_append]
        rw [e1, hih]
        simp
    · rw [List.filter_cons_of_neg (by simpa using hm)] at h ⊢
      rw [updateRecords_cons, updateRecordStep_skip w f fin id record tr hm]
      exact ih addrs tr h

/-- When the zone lookup and the record listing both get an answer, `UpdateIP` is the
loop over the listed records. -/
theorem UpdateIP_eq_updateRecords (w : World) (f : Flags) (fin : Final) (tr : List Event)
    (zbody rbody : GoString) (z : Zone) (zs : List Zone)
    (hz : w.Do tr (zonesRequest fin) = .response zbody none)
    (hsucc : (w.unmarshalZoneList zbody).Success = true)
    (hres : (w.unmarshalZoneList zbody).Result = z :: zs)
    (hr : w.Do (tr ++ [.http (zonesRequest fin)]) (recordsRequest fin z.ID)
      = .response rbody none) :
    UpdateIP w f fin tr = updateRecords w f fin z.ID (w.unmarshalRecordList rbody).Result
      (tr ++ [.http (zonesRequest fin), .http (recordsRequest fin z.ID)]) := by
  simp only [UpdateIP, lookupZone, hz, hsucc, hres]
  simp only [Bool.not_true, Bool.false_eq_true, if_false, List.append_assoc,
    List.singleton_append, List.cons_append, List.nil_append]
  rw [hr]


theorem lookupZone_trace (w : World) (fin : Final) (tr : List Event) :
    (lookupZone w fin tr).2 = tr ∨ (lookupZone w fin tr).2 = tr ++ [.http (zonesRequest fin)] := by
  unfold lookupZone
  simp only
  split
  · left; rfl
  · right; rfl
  · right; rfl
  · right
    split_ifs
    · split <;> rfl
    · split <;> rfl

/-- The trace of `UpdateIP` only grows. -/
theorem UpdateIP_trace_extends (w : World) (f : Flags) (fin : Final) (tr : List Event) :
    ∃ new, (UpdateIP w f fin tr).2 = tr ++ new := by
  unfold UpdateIP
  have hl : ∃ n1, (lookupZone w fin tr).2 = tr ++ n1 := by
    rcases lookupZone_trace w fin tr with h | h
    · exact ⟨[], by rw [h, List.append_nil]⟩
    · exact ⟨_, h⟩
  obtain ⟨n1, hl⟩ := hl
  rcases hz : lookupZone w fin tr with ⟨out, tr1⟩
  rw [hz] at hl
  simp only at hl
  subst hl
  rcases out with (e | id) | p
  · exact ⟨_, rfl⟩
  · simp only
    split
    · exact ⟨_, rfl⟩
    · exact ⟨_, by simp only [List.append_assoc]; rfl⟩
    · exact ⟨_, by simp only [List.append_assoc]; rfl⟩
    · obtain ⟨new, hn, _⟩ := updateRecords_events w f fin id
        (w.unmarshalRecordList _).Result
        (tr ++ n1 ++ [.http (recordsRequest fin id)])
      exact ⟨_, by rw [hn]; simp only [List.append_assoc]; rfl⟩
  · exact ⟨_, rfl⟩

theorem httpRequests_append (xs ys : List Event) :
    httpRequests (xs ++ ys) = httpRequests xs ++ httpRequests ys := by
  induction xs with
  | nil => rfl
  | cons x xs ih =>
    cases x with
    | http req =>
      show req :: httpRequests (xs ++ ys) = req :: httpRequests xs ++ httpRequests ys
      rw [ih]
      rfl
    | log l m => exact ih

theorem logV4_requests (w : World) (f : Flags) (tr tr1 : List Event)
    (h : logV4 w f tr = (.ret (), tr1)) :
    httpRequests tr1 = httpRequests tr ++ (if f.v4 = true then [v4Request f] else []) := by
  unfold logV4 at h
  by_cases hv : f.v4 = true
  · rw [if_pos hv, GetV4Address_eq] at h
    rw [if_pos hv]
    rcases hd : w.Do tr (v4Request f) with _ | err | ⟨address, re⟩
    · rw [hd] at h
      simp only [Prod.mk.injEq] at h
      exact absurd h.1 (by simp)
    · rw [hd] at h
      simp only [Prod.mk.injEq] at h
      exact absurd h.1 (by simp)
    · rw [hd] at h
      simp only [Prod.mk.injEq, true_and] at h
      rw [← h, httpRequests_append, httpRequests_append]
      simp [httpRequests]
  · rw [if_neg hv] at h
    rw [if_neg hv]
    simp only [Prod.mk.injEq, true_and] at h
    rw [h, List.append_nil]

theorem logV6_requests (w : World) (f : Flags) (tr tr1 : List Event)
    (h : logV6 w f tr = (.ret (), tr1)) :
    httpRequests tr1 = httpRequests tr ++ (if f.v6 = true then [v6Request f] else []) := by
  unfold logV6 at h
  by_cases hv : f.v6 = true
  · rw [if_pos hv, GetV6Address_eq] at h
    rw [if_pos hv]
    rcases hd : w.Do tr (v6Request f) with _ | err | ⟨address, re⟩
    · rw [hd] at h
      simp only [Prod.mk.injEq] at h
      exact absurd h.1 (by simp)
    · rw [hd] at h
      simp only [Prod.mk.injEq] at h
      exact absurd h.1 (by simp)
    · rw [hd] at h
      simp only [Prod.mk.injEq, true_and] at h
      rw [← h, httpRequests_append, httpRequests_append]
      simp [httpRequests]
  · rw [if_neg hv] at h
    rw [if_neg hv]
    simp only [Prod.mk.injEq, true_and] at h
    rw [h, List.append_nil]

/-- The requests made before `UpdateIP` is called, when no logging fetch panics. -/
theorem mainBeforeUpdate_requests (w : World) (f : Flags) (fin : Final)
    (h : (mainBeforeUpdate w f fin).1 = .ret ()) :
    httpRequests (mainBeforeUpdate w f fin).2
      = (if f.v4 = true then [v4Request f] else [])
        ++ (if f.v6 = true then [v6Request f] else []) := by
  unfold mainBeforeUpdate at h ⊢
  simp only at h ⊢
  generalize h4 : logV4 w f _ = res at h ⊢
  rcases res with ⟨out, tr1⟩
  rcases out with ⟨⟩ | p
  · simp only at h ⊢
    generalize h6 : logV6 w f tr1 = res6 at h ⊢
    rcases res6 with ⟨out6, tr2⟩
    simp only at h ⊢
    subst h
    rw [logV6_requests w f tr1 tr2 h6, logV4_requests w f _ tr1 h4]
    rfl
  · simp only at h
    exact absurd h (by simp)

/-! ## The claims -/

/-- Claim C1: each of the four settings (API key, account email, domain, subdomain)
resolves to the flag value when that is non-empty and to the environment value
otherwise, so to the empty string when both are empty. -/
theorem C1_flag_overrides_environment (f : Flags) (getenv : Environ) :
    (resolveFinal f getenv).finalKey
        = (if f.key = [] then getenv (lit "CLOUDFLARE_DDNS_KEY") else f.key)
    ∧ (resolveFinal f getenv).finalEmail
        = (if f.email = [] then getenv (lit "CLOUDFLARE_DDNS_EMAIL") else f.email)
    ∧ (resolveFinal f getenv).finalDomain
        = (if f.domain = [] then getenv (lit "CLOUDFLARE_DDNS_DOMAIN") else f.domain)
    ∧ (resolveFinal f getenv).finalSubdomain
        = (if f.subDomain = [] then getenv (lit "CLOUDFLARE_DDNS_SUBDOMAIN") else f.subDomain)
    ∧ (∀ flagVal envVal : GoString,
        resolveSetting flagVal envVal = (if flagVal = [] then envVal else flagVal))
    ∧ resolveSetting [] [] = [] := by
  have key : ∀ flagVal envVal : GoString,
      resolveSetting flagVal envVal = (if flagVal = [] then envVal else flagVal) := by
    intro flagVal envVal
    have e : lit "" = [] := by decide
    unfold resolveSetting
    rw [e]
    by_cases h : flagVal = []
    · simp [h]
    · simp [h]
  refine ⟨key _ _, key _ _, key _ _, key _ _, key, ?_⟩
  rw [key]
  rfl

/-- Claim C4: `UpdateIP` issues no PUT and no address fetch for a record whose type
matches no enabled protocol.  With the zone found and the record list received, it
runs exactly as on the list without such records; every request after the two GETs is
the address fetch or the PUT of a listed record whose type is "A" with v4 enabled or
"AAAA" with v6 enabled; and when no listed record is of that kind (an AAAA record
with v6 disabled, an A record with v4 disabled, any other type) nothing is requested
at all. -/
theorem C4_unmatched_records_are_skipped (w : World) (f : Flags) (fin : Final)
    (tr : List Event) (zbody rbody : GoString) (z : Zone) (zs : List Zone)
    (hz : w.Do tr (zonesRequest fin) = .response zbody none)
    (hsucc : (w.unmarshalZoneList zbody).Success = true)
    (hres : (w.unmarshalZoneList zbody).Result = z :: zs)
    (hr : w.Do (tr ++ [.http (zonesRequest fin)]) (recordsRequest fin z.ID)
      = .response rbody none) :
    UpdateIP w f fin tr
        = updateRecords w f fin z.ID
            ((w.unmarshalRecordList rbody).Result.filter (fun r => decide (matchesProtocol f r)))
            (tr ++ [.http (zonesRequest fin), .http (recordsRequest fin z.ID)])
    ∧ (∃ new, (UpdateIP w f fin tr).2
          = tr ++ [.http (zonesRequest fin), .http (recordsRequest fin z.ID)] ++ new
        ∧ ∀ ev ∈ new, ∃ record ∈ (w.unmarshalRecordList rbody).Result,
            ((record.Type_ = lit "A" ∧ f.v4 = true) ∨ (record.Type_ = lit "AAAA" ∧ f.v6 = true))
            ∧ (ev = .http (fetchFor f record)
              ∨ ∃ address,
                  ev = .http (putRequest fin z.ID record.ID record.Type_ record.Name address)))
    ∧ ((∀ record ∈ (w.unmarshalRecordList rbody).Result,
          ¬ ((record.Type_ = lit "A" ∧ f.v4 = true) ∨ (record.Type_ = lit "AAAA" ∧ f.v6 = true)))
        → UpdateIP w f fin tr
          = (.ret none, tr ++ [.http (zonesRequest fin), .http (recordsRequest fin z.ID)])) := by
  have heq := UpdateIP_eq_updateRecords w f fin tr zbody rbody z zs hz hsucc hres hr
  refine ⟨?_, ?_, ?_⟩
  · rw [heq]
    exact updateRecords_filter w f fin z.ID _ _
  · rw [heq]
    exact updateRecords_events w f fin z.ID _ _
  · intro hnone
    rw [heq]
    exact updateRecords_none w f fin z.ID _ hnone _

/-- Witness of C4: `secondFailsWorld` lists an A, a TXT, an AAAA and an A record. -/
theorem C4_witness :
    UpdateIP secondFailsWorld demoFlags demoFinal []
        = updateRecords secondFailsWorld demoFlags demoFinal (lit "z1")
            (fourRecords.filter (fun r => decide (matchesProtocol demoFlags r)))
            ([] ++ [.http (zonesRequest demoFinal), .http (recordsRequest demoFinal (lit "z1"))])
    ∧ (∃ new, (UpdateIP secondFailsWorld demoFlags demoFinal []).2
          = [] ++ [.http (zonesRequest demoFinal), .http (recordsRequest demoFinal (lit "z1"))]
            ++ new
        ∧ ∀ ev ∈ new, ∃ record ∈ fourRecords,
            ((record.Type_ = lit "A" ∧ demoFlags.v4 = true)
              ∨ (record.Type_ = lit "AAAA" ∧ demoFlags.v6 = true))
            ∧ (ev = .http (fetchFor demoFlags record)
              ∨ ∃ address, ev = .http
                  (putRequest demoFinal (lit "z1") record.ID record.Type_ record.Name address)))
    ∧ ((∀ record ∈ fourRecords,
          ¬ ((record.Type_ = lit "A" ∧ demoFlags.v4 = true)
            ∨ (record.Type_ = lit "AAAA" ∧ demoFlags.v6 = true)))
        → UpdateIP secondFailsWorld demoFlags demoFinal []
          = (.ret none,
              [] ++ [.http (zonesRequest demoFinal), .http (recordsRequest demoFinal (lit "z1"))])) :=
  C4_unmatched_records_are_skipped secondFailsWorld demoFlags demoFinal []
    (lit "1.2.3.4\n") (lit "1.2.3.4\n") ⟨lit "z1", lit "example.com"⟩ [] rfl rfl rfl rfl

/-- Claim C5: when the world answers the fetch and the PUT of every matching record
before `r` with success, and the PUT of the matching record `r` fails (in transport, or
with `success` false and a first error), then `UpdateRecord` for `r` returns that error
`err`, `UpdateIP` returns `err`, every matching record before `r` got exactly one
address fetch and one PUT, in list order, then `r` got its own, and nothing is requested
for the records after `r`. -/
theorem C5_stops_at_first_failed_update (w : World) (f : Flags) (fin : Final)
    (tr tr1 : List Event) (zbody rbody abody : GoString) (ae : Option GoError)
    (z : Zone) (zs : List Zone) (pre post : List Record) (r : Record)
    (addrs : List GoString) (err : GoError)
    (hz : w.Do tr (zonesRequest fin) = .response zbody none)
    (hsucc : (w.unmarshalZoneList zbody).Success = true)
    (hres : (w.unmarshalZoneList zbody).Result = z :: zs)
    (hr : w.Do (tr ++ [.http (zonesRequest fin)]) (recordsRequest fin z.ID)
      = .response rbody none)
    (hlist : (w.unmarshalRecordList rbody).Result = pre ++ r :: post)
    (hpre : UpdatesSucceed w f fin z.ID (pre.filter (fun x => decide (matchesProtocol f x)))
      addrs (tr ++ [.http (zonesRequest fin), .http (recordsRequest fin z.ID)]))
    (htr1 : tr1 = tr ++ [.http (zonesRequest fin), .http (recordsRequest fin z.ID)]
      ++ ((pre.filter (fun x => decide (matchesProtocol f x))).zip addrs).flatMap
          (fun p => [Event.http (fetchFor f p.1),
            Event.http (putRequest fin z.ID p.1.ID p.1.Type_ p.1.Name p.2)]))
    (hm : (r.Type_ = lit "A" ∧ f.v4 = true) ∨ (r.Type_ = lit "AAAA" ∧ f.v6 = true))
    (hfetch : w.Do tr1 (fetchFor f r) = .response abody ae)
    (hfail : w.Do (tr1 ++ [.http (fetchFor f r)])
          (putRequest fin z.ID r.ID r.Type_ r.Name (TrimSpace abody)) = .failed err
      ∨ ∃ pbody pe e0 rest,
          w.Do (tr1 ++ [.http (fetchFor f r)])
              (putRequest fin z.ID r.ID r.Type_ r.Name (TrimSpace abody)) = .response pbody pe
          ∧ (w.unmarshalRecordList pbody).Success = false
          ∧ (w.unmarshalRecordList pbody).Errors = e0 :: rest
          ∧ err = Errorf e0.Code e0.Message) :
    (UpdateRecord w fin z.ID r.ID r.Type_ r.Name (TrimSpace abody)
        (tr1 ++ [.http (fetchFor f r)])).1 = .ret (some err)
    ∧ UpdateIP w f fin tr
        = (.ret (some err),
            tr1 ++ [.http (fetchFor f r),
              .http (putRequest fin z.ID r.ID r.Type_ r.Name (TrimSpace abody))])
    ∧ addrs.length = (pre.filter (fun x => decide (matchesProtocol f x))).length := by
  have heq := UpdateIP_eq_updateRecords w f fin tr zbody rbody z zs hz hsucc hres hr
  have hloop := updateRecords_of_UpdatesSucceed w f fin z.ID pre addrs _ hpre
  have hupd := UpdateRecord_fail w fin z.ID r.ID r.Type_ r.Name (TrimSpace abody)
    (tr1 ++ [.http (fetchFor f r)]) err hfail
  have hstep : updateRecordStep w f fin z.ID r tr1
      = (.ret (some err),
          tr1 ++ [.http (fetchFor f r),
            .http (putRequest fin z.ID r.ID r.Type_ r.Name (TrimSpace abody))]) := by
    rw [updateRecordStep_match w f fin z.ID r tr1 hm, hfetch]
    simp only
    rw [hupd]
    simp only [List.append_assoc, List.singleton_append]
  refine ⟨by rw [hupd], ?_, UpdatesSucceed_length w f fin z.ID _ addrs _ hpre⟩
  rw [heq, hlist]
  refine updateRecords_stop w f fin z.ID pre r post err _ tr1 _ ?_ hstep
  rw [hloop, htr1]
  rfl

/-- Witness of C5: in `secondFailsWorld` the PUT of the AAAA record "r2" is answered with
error 1003 after the A record "r1" was updated; the A record "r3" behind it gets
nothing. -/
theorem C5_witness :
    UpdateIP secondFailsWorld demoFlags demoFinal []
      = (.ret (some (.errorf (lit "1003: Invalid zone"))),
          [.http (zonesRequest demoFinal), .http (recordsRequest demoFinal (lit "z1")),
            .http (v4Request demoFlags),
            .http (putRequest demoFinal (lit "z1") (lit "r1") (lit "A") (lit "example.com")
              (lit "1.2.3.4"))]
          ++ [.http (fetchFor demoFlags ⟨lit "r2", lit "AAAA", lit "example.com", [], false, [], []⟩),
            .http (putRequest demoFinal (lit "z1") (lit "r2") (lit "AAAA") (lit "example.com")
              (TrimSpace (lit "1.2.3.4\n")))]) :=
  (C5_stops_at_first_failed_update secondFailsWorld demoFlags demoFinal []
    [.http (zonesRequest demoFinal), .http (recordsRequest demoFinal (lit "z1")),
      .http (v4Request demoFlags),
      .http (putRequest demoFinal (lit "z1") (lit "r1") (lit "A") (lit "example.com")
        (lit "1.2.3.4"))]
    (lit "1.2.3.4\n") (lit "1.2.3.4\n") (lit "1.2.3.4\n") none
    ⟨lit "z1", lit "example.com"⟩ []
    [⟨lit "r1", lit "A", lit "example.com", [], false, [], []⟩,
     ⟨lit "r0", lit "TXT", lit "example.com", [], false, [], []⟩]
    [⟨lit "r3", lit "A", lit "example.com", [], false, [], []⟩]
    ⟨lit "r2", lit "AAAA", lit "example.com", [], false, [], []⟩
    [lit "1.2.3.4"] (.errorf (lit "1003: Invalid zone"))
    rfl rfl rfl rfl rfl
    (by
      have e : ([⟨lit "r1", lit "A", lit "example.com", [], false, [], []⟩,
          ⟨lit "r0", lit "TXT", lit "example.com", [], false, [], []⟩] : List Record).filter
            (fun x => decide (matchesProtocol demoFlags x))
          = [⟨lit "r1", lit "A", lit "example.com", [], false, [], []⟩] := by decide
      rw [e]
      exact ⟨⟨lit "1.2.3.4\n", none, rfl, by decide⟩, ⟨lit "1.2.3.4\n", none, rfl, rfl⟩,
        trivial⟩)
    (by decide)
    (Or.inr ⟨rfl, by decide⟩)
    rfl
    (Or.inr ⟨lit "no", none, ⟨1003, lit "Invalid zone"⟩, [], rfl, rfl, rfl, by decide⟩)).2.1

/-- Counterexample to C6 as stated: the zone lookup succeeds with zone ID "z1", the
record list is the one A record with ID "%zz" and name "example.com", v4 is enabled and
the fetched address is "1.2.3.4"; `http.NewRequest` rejects the URL text
`.../zones/z1/dns_records/%zz`, so `UpdateIP` panics on the nil request and issues no
PUT. -/
theorem C6_counterexample :
    badEscapeWorld.Do [] (zonesRequest demoFinal) = .response (lit " 1.2.3.4\n") none
    ∧ (badEscapeWorld.unmarshalZoneList (lit " 1.2.3.4\n")).Success = true
    ∧ (badEscapeWorld.unmarshalZoneList (lit " 1.2.3.4\n")).Result
        = [⟨lit "z1", lit "example.com"⟩]
    ∧ (badEscapeWorld.unmarshalRecordList (lit " 1.2.3.4\n")).Result
        = [⟨lit "%zz", lit "A", lit "example.com", [], false, [], []⟩]
    ∧ demoFlags.v4 = true
    ∧ (GetV4Address badEscapeWorld demoFlags
        [.http (zonesRequest demoFinal), .http (recordsRequest demoFinal (lit "z1"))]).1
        = .ret (lit "1.2.3.4")
    ∧ UpdateIP badEscapeWorld demoFlags demoFinal []
        = (.panic .nilDereference,
            [.http (zonesRequest demoFinal), .http (recordsRequest demoFinal (lit "z1")),
              .http (v4Request demoFlags)])
    ∧ (httpRequests (UpdateIP badEscapeWorld demoFlags demoFinal []).2).filter
        (fun q => decide (q.method = lit "PUT")) = [] := by
  decide

/-- Claim C6, amended: when the zone lookup succeeds with first zone ID `z`, the record
list is one record of type "A" with ID `r` and name `n`, v4 is enabled and the fetched
IPv4 address is `a`, `UpdateIP` builds one PUT from the URL text
`https://api.cloudflare.com/client/v4/zones/z/dns_records/r` with body
`{"id": "r", "content": "a", "type": "A", "name": "n", "ttl": 120}`.  When
`http.NewRequest` accepts that URL text, exactly one PUT is issued, that one; when it
rejects it, no PUT is issued and `UpdateIP` panics on the nil request. -/
theorem C6_single_A_record_single_put (w : World) (f : Flags) (fin : Final)
    (tr : List Event) (zbody rbody abody : GoString) (ae : Option GoError)
    (zone : Zone) (zs : List Zone) (record : Record) (z r n a : GoString)
    (hz : w.Do tr (zonesRequest fin) = .response zbody none)
    (hsucc : (w.unmarshalZoneList zbody).Success = true)
    (hres : (w.unmarshalZoneList zbody).Result = zone :: zs)
    (hzid : zone.ID = z)
    (hr : w.Do (tr ++ [.http (zonesRequest fin)]) (recordsRequest fin z) = .response rbody none)
    (hlist : (w.unmarshalRecordList rbody).Result = [record])
    (hty : record.Type_ = lit "A") (hid : record.ID = r) (hname : record.Name = n)
    (hv4 : f.v4 = true)
    (ha : w.Do (tr ++ [.http (zonesRequest fin), .http (recordsRequest fin z)]) (v4Request f)
      = .response abody ae)
    (haddr : TrimSpace abody = a) :
    (w.Do (tr ++ [.http (zonesRequest fin), .http (recordsRequest fin z), .http (v4Request f)])
          (putRequest fin z r (lit "A") n a) ≠ .invalid →
      ∃ put : Request,
        put = putRequest fin z r (lit "A") n a
        ∧ (UpdateIP w f fin tr).2
          = tr ++ [.http (zonesRequest fin), .http (recordsRequest fin z), .http (v4Request f),
              .http put]
        ∧ put.method = lit "PUT"
        ∧ put.url = apiBase ++ lit "/zones/" ++ z ++ lit "/dns_records/" ++ r
        ∧ put.body = some (lit "\x7b\"id\": \"" ++ r ++ lit "\", \"content\": \"" ++ a
            ++ lit "\", \"type\": \"A\", \"name\": \"" ++ n ++ lit "\", \"ttl\": 120\x7d")
        ∧ (httpRequests ((UpdateIP w f fin tr).2.drop tr.length)).filter
            (fun q => decide (q.method = lit "PUT")) = [put])
    ∧ (w.Do (tr ++ [.http (zonesRequest fin), .http (recordsRequest fin z), .http (v4Request f)])
          (putRequest fin z r (lit "A") n a) = .invalid →
      UpdateIP w f fin tr
        = (.panic .nilDereference,
            tr ++ [.http (zonesRequest fin), .http (recordsRequest fin z),
              .http (v4Request f)])) := by
  subst hzid
  have heq := UpdateIP_eq_updateRecords w f fin tr zbody rbody zone zs hz hsucc hres hr
  have hm : matchesProtocol f record := Or.inl ⟨hty, hv4⟩
  have hf : fetchFor f record = v4Request f := by simp only [fetchFor, if_pos hty]
  have e3 : tr ++ [Event.http (zonesRequest fin), Event.http (recordsRequest fin zone.ID)]
      ++ [Event.http (v4Request f)]
      = tr ++ [.http (zonesRequest fin), .http (recordsRequest fin zone.ID),
          .http (v4Request f)] := by
    simp only [List.append_assoc, List.cons_append, List.nil_append]
  have hrun : UpdateIP w f fin tr
      = match UpdateRecord w fin zone.ID r (lit "A") n a
          (tr ++ [.http (zonesRequest fin), .http (recordsRequest fin zone.ID),
            .http (v4Request f)]) with
        | (.panic p, t) => (.panic p, t)
        | (.ret (some err), t) => (.ret (some err), t)
        | (.ret none, t) => (.ret none, t) := by
    rw [heq, hlist, updateRecords_cons, updateRecordStep_match w f fin _ record _ hm, hf, ha]
    simp only
    rw [hty, hid, hname, haddr, e3]
    generalize UpdateRecord w fin zone.ID r (lit "A") n a
      (tr ++ [.http (zonesRequest fin), .http (recordsRequest fin zone.ID),
        .http (v4Request f)]) = res
    rcases res with ⟨out, tr2⟩
    rcases out with (_ | e) | p <;> simp [updateRecords]
  constructor
  · intro hput
    have ht := UpdateRecord_trace w fin zone.ID r (lit "A") n a _ hput
    have htr : (UpdateIP w f fin tr).2
        = tr ++ [.http (zonesRequest fin), .http (recordsRequest fin zone.ID),
            .http (v4Request f), .http (putRequest fin zone.ID r (lit "A") n a)] := by
      rw [hrun]
      generalize UpdateRecord w fin zone.ID r (lit "A") n a
        (tr ++ [.http (zonesRequest fin), .http (recordsRequest fin zone.ID),
          .http (v4Request f)]) = res at ht
      rcases res with ⟨out, tr2⟩
      simp only at ht
      subst ht
      rcases out with (_ | e) | p <;> simp
    refine ⟨putRequest fin zone.ID r (lit "A") n a, rfl, htr, rfl, ?_, ?_, ?_⟩
    · simp only [putRequest, apiBase]
      have e : lit "https://api.cloudflare.com/client/v4/zones/"
          = lit "https://api.cloudflare.com/client/v4" ++ lit "/zones/" := by decide
      rw [e]
    · simp only [putRequest]
      have e : lit "\", \"type\": \"" ++ lit "A" ++ lit "\", \"name\": \""
          = lit "\", \"type\": \"A\", \"name\": \"" := by decide
      rw [← e]
      simp only [List.append_assoc]
    · rw [htr, List.drop_left]
      have hg : (lit "GET" = lit "PUT") = False := by
        simp only [eq_iff_iff, iff_false]
        decide
      simp [httpRequests, List.filter, zonesRequest, recordsRequest, v4Request, putRequest, hg]
  · intro hinv
    rw [hrun, UpdateRecord_invalid w fin zone.ID r (lit "A") n a _ hinv]

/-- Witness of C6 (amended): z = z1, r = r1, n = example.com, a = 1.2.3.4 in `demoWorld`,
where the PUT is accepted. -/
theorem C6_witness :
    ∃ put : Request,
      put = putRequest demoFinal (lit "z1") (lit "r1") (lit "A") (lit "example.com")
        (lit "1.2.3.4")
      ∧ (UpdateIP demoWorld demoFlags demoFinal []).2
        = [] ++ [.http (zonesRequest demoFinal), .http (recordsRequest demoFinal (lit "z1")),
            .http (v4Request demoFlags), .http put]
      ∧ put.method = lit "PUT"
      ∧ put.url = apiBase ++ lit "/zones/" ++ lit "z1" ++ lit "/dns_records/" ++ lit "r1"
      ∧ put.body = some (lit "\x7b\"id\": \"" ++ lit "r1" ++ lit "\", \"content\": \""
          ++ lit "1.2.3.4" ++ lit "\", \"type\": \"A\", \"name\": \"" ++ lit "example.com"
          ++ lit "\", \"ttl\": 120\x7d")
      ∧ (httpRequests ((UpdateIP demoWorld demoFlags demoFinal []).2.drop
            ([] : List Event).length)).filter
          (fun q => decide (q.method = lit "PUT")) = [put] :=
  (C6_single_A_record_single_put demoWorld demoFlags demoFinal [] (lit " 1.2.3.4\n")
    (lit " 1.2.3.4\n") (lit " 1.2.3.4\n") none ⟨lit "z1", lit "example.com"⟩ [] demoRecord
    (lit "z1") (lit "r1") (lit "example.com") (lit "1.2.3.4")
    rfl rfl rfl rfl rfl rfl rfl rfl rfl rfl rfl (by decide)).1 (by decide)

/-- Claim C7, evaluated at the failing input: the zone lookup succeeds and the record
listing is answered with `{"success":false,"errors":[{"code":1003,"message":"Invalid
zone"}]}`; `UpdateIP` returns nil after the two GETs and `main` logs success. -/
theorem C7_listing_failure_reported_as_success :
    UpdateIP listingFailsWorld demoFlags demoFinal []
        = (.ret none,
            [.http (zonesRequest demoFinal), .http (recordsRequest demoFinal (lit "z1"))])
    ∧ (main listingFailsWorld noArgs demoEnviron).2.getLast?
        = some (.log .info (lit "Successfully updated DNS records")) := by
  decide

/-- Counterexample to C8 as stated: with `-v4=false -v6=false` the program reaches
`UpdateIP` without any address fetch, and makes none in the whole run. -/
theorem C8_counterexample :
    (mainBeforeUpdate demoWorld (parseFlags togglesOffArgs)
        (resolveFinal (parseFlags togglesOffArgs) demoEnviron)).1 = .ret ()
    ∧ httpRequests (mainBeforeUpdate demoWorld (parseFlags togglesOffArgs)
        (resolveFinal (parseFlags togglesOffArgs) demoEnviron)).2 = []
    ∧ httpRequests (main demoWorld togglesOffArgs demoEnviron).2
        = [zonesRequest (resolveFinal (parseFlags togglesOffArgs) demoEnviron),
            recordsRequest (resolveFinal (parseFlags togglesOffArgs) demoEnviron) (lit "z1")] := by
  decide

/-- Claim C8, amended: before `UpdateIP` is called, `main` fetches the external IPv4
address for logging exactly when v4 is enabled and the external IPv6 address exactly
when v6 is enabled (IPv4 first); these fetches come before everything `UpdateIP` does,
so they are separate from the fetches made per updated record. -/
theorem C8_logging_fetches_follow_toggles (w : World) (args : Args) (getenv : Environ)
    (h : (mainBeforeUpdate w (parseFlags args) (resolveFinal (parseFlags args) getenv)).1
      = .ret ()) :
    httpRequests (mainBeforeUpdate w (parseFlags args)
        (resolveFinal (parseFlags args) getenv)).2
      = (if (parseFlags args).v4 = true then [v4Request (parseFlags args)] else [])
        ++ (if (parseFlags args).v6 = true then [v6Request (parseFlags args)] else [])
    ∧ ∃ new last,
        (UpdateIP w (parseFlags args) (resolveFinal (parseFlags args) getenv)
            (mainBeforeUpdate w (parseFlags args) (resolveFinal (parseFlags args) getenv)).2).2
          = (mainBeforeUpdate w (parseFlags args) (resolveFinal (parseFlags args) getenv)).2
            ++ new
        ∧ (main w args getenv).2
          = (mainBeforeUpdate w (parseFlags args) (resolveFinal (parseFlags args) getenv)).2
            ++ new ++ last := by
  refine ⟨mainBeforeUpdate_requests w _ _ h, ?_⟩
  obtain ⟨new, hn⟩ := UpdateIP_trace_extends w (parseFlags args)
    (resolveFinal (parseFlags args) getenv)
    (mainBeforeUpdate w (parseFlags args) (resolveFinal (parseFlags args) getenv)).2
  unfold main
  simp only
  rcases hb : mainBeforeUpdate w (parseFlags args) (resolveFinal (parseFlags args) getenv)
    with ⟨out, tr1⟩
  rw [hb] at h hn
  simp only at h hn
  subst h
  simp only
  rcases hu : UpdateIP w (parseFlags args) (resolveFinal (parseFlags args) getenv) tr1
    with ⟨uo, tr2⟩
  rw [hu] at hn
  simp only at hn
  subst hn
  rcases uo with (_ | e) | p
  · exact ⟨new, _, rfl, rfl⟩
  · exact ⟨new, _, rfl, rfl⟩
  · exact ⟨new, [], rfl, by simp⟩

/-- Witness of C8 (amended): no flags given, so both toggles are on, in `demoWorld`. -/
theorem C8_witness :
    httpRequests (mainBeforeUpdate demoWorld (parseFlags noArgs)
        (resolveFinal (parseFlags noArgs) demoEnviron)).2
      = (if (parseFlags noArgs).v4 = true then [v4Request (parseFlags noArgs)] else [])
        ++ (if (parseFlags noArgs).v6 = true then [v6Request (parseFlags noArgs)] else [])
    ∧ ∃ new last,
        (UpdateIP demoWorld (parseFlags noArgs) (resolveFinal (parseFlags noArgs) demoEnviron)
            (mainBeforeUpdate demoWorld (parseFlags noArgs)
              (resolveFinal (parseFlags noArgs) demoEnviron)).2).2
          = (mainBeforeUpdate demoWorld (parseFlags noArgs)
              (resolveFinal (parseFlags noArgs) demoEnviron)).2 ++ new
        ∧ (main demoWorld noArgs demoEnviron).2
          = (mainBeforeUpdate demoWorld (parseFlags noArgs)
              (resolveFinal (parseFlags noArgs) demoEnviron)).2 ++ new ++ last :=
  C8_logging_fetches_follow_toggles demoWorld noArgs demoEnviron (by decide)

/-- Claim C9: the zone lookup of `UpdateIP` returns a structured error only when
`success` is false and `errors` is non-empty; when `success` is true and `result` is
empty, and when `success` is false and `errors` is empty (as for a body that is not
JSON, which leaves the zero value), `UpdateIP` returns neither an error nor a zone ID
but hits an index-out-of-range fault. -/
theorem C9_empty_lists_fault (w : World) (f : Flags) (fin : Final) (tr : List Event)
    (zbody : GoString) (hz : w.Do tr (zonesRequest fin) = .response zbody none) :
    ((∃ msg, (lookupZone w fin tr).1 = .ret (.error (.errorf msg)))
        ↔ ((w.unmarshalZoneList zbody).Success = false
            ∧ (w.unmarshalZoneList zbody).Errors ≠ []))
    ∧ ((w.unmarshalZoneList zbody).Success = true → (w.unmarshalZoneList zbody).Result = []
        → (lookupZone w fin tr).1 = .panic .indexOutOfRange
          ∧ UpdateIP w f fin tr = (.panic .indexOutOfRange, tr ++ [.http (zonesRequest fin)]))
    ∧ ((w.unmarshalZoneList zbody).Success = false → (w.unmarshalZoneList zbody).Errors = []
        → (lookupZone w fin tr).1 = .panic .indexOutOfRange
          ∧ UpdateIP w f fin tr = (.panic .indexOutOfRange, tr ++ [.http (zonesRequest fin)]))
    ∧ (w.unmarshalZoneList zbody = ZoneList.zero
        → UpdateIP w f fin tr = (.panic .indexOutOfRange, tr ++ [.http (zonesRequest fin)])) := by
  have hfalse : ∀ (hs : (w.unmarshalZoneList zbody).Success = false)
      (he : (w.unmarshalZoneList zbody).Errors = []),
      (lookupZone w fin tr).1 = .panic .indexOutOfRange
        ∧ UpdateIP w f fin tr = (.panic .indexOutOfRange, tr ++ [.http (zonesRequest fin)]) := by
    intro hs he
    constructor
    · simp only [lookupZone, hz, hs, he]
      simp
    · simp only [UpdateIP, lookupZone, hz, hs, he]
      simp
  refine ⟨?_, ?_, hfalse, ?_⟩
  · constructor
    · rintro ⟨msg, hm⟩
      simp only [lookupZone, hz] at hm
      rcases hs : (w.unmarshalZoneList zbody).Success
      · refine ⟨rfl, ?_⟩
        intro he
        rw [hs, he] at hm
        simp at hm
      · rw [hs] at hm
        simp only [Bool.not_true, Bool.false_eq_true, if_false] at hm
        rcases hres : (w.unmarshalZoneList zbody).Result with _ | ⟨z0, zs⟩
        · rw [hres] at hm
          simp at hm
        · rw [hres] at hm
          simp at hm
    · rintro ⟨hs, he⟩
      rcases hes : (w.unmarshalZoneList zbody).Errors with _ | ⟨e0, es⟩
      · exact absurd hes he
      · refine ⟨fmtD e0.Code ++ lit ": " ++ e0.Message, ?_⟩
        simp only [lookupZone, hz, hs, hes]
        simp [Errorf]
  · intro hs hres
    constructor
    · simp only [lookupZone, hz, hs, hres]
      simp
    · simp only [UpdateIP, lookupZone, hz, hs, hres]
      simp
  · intro hzero
    exact (hfalse (by rw [hzero]; rfl) (by rw [hzero]; rfl)).2

/-- Witness of C9: a zone response that does not parse, in `unparsableWorld`. -/
theorem C9_witness :
    UpdateIP unparsableWorld demoFlags demoFinal []
      = (.panic .indexOutOfRange, [] ++ [.http (zonesRequest demoFinal)]) :=
  (C9_empty_lists_fault unparsableWorld demoFlags demoFinal [] (lit "<html>") rfl).2.2.2 rfl

/-- Claim C10: the flag `-subdomain` defaults to "@", so without the flag the
subdomain is "@" whatever the environment holds, and the environment variable is used
only when the flag is given as the empty string; key, email and domain, whose default
is empty, fall back to the environment also when their flag is not given. -/
theorem C10_subdomain_default_hides_environment (args : Args) (getenv : Environ) :
    (resolveFinal (parseFlags args) getenv).finalSubdomain
        = (match args.subdomain with
          | none => lit "@"
          | some v => if v = [] then getenv (lit "CLOUDFLARE_DDNS_SUBDOMAIN") else v)
    ∧ (resolveFinal (parseFlags args) getenv).finalKey
        = (match args.key with
          | none => getenv (lit "CLOUDFLARE_DDNS_KEY")
          | some v => if v = [] then getenv (lit "CLOUDFLARE_DDNS_KEY") else v)
    ∧ (resolveFinal (parseFlags args) getenv).finalEmail
        = (match args.email with
          | none => getenv (lit "CLOUDFLARE_DDNS_EMAIL")
          | some v => if v = [] then getenv (lit "CLOUDFLARE_DDNS_EMAIL") else v)
    ∧ (resolveFinal (parseFlags args) getenv).finalDomain
        = (match args.domain with
          | none => getenv (lit "CLOUDFLARE_DDNS_DOMAIN")
          | some v => if v = [] then getenv (lit "CLOUDFLARE_DDNS_DOMAIN") else v)
    ∧ lit "@" ≠ [] := by
  have key : ∀ flagVal envVal : GoString,
      resolveSetting flagVal envVal = (if flagVal = [] then envVal else flagVal) := by
    intro flagVal envVal
    have e : lit "" = [] := by decide
    unfold resolveSetting
    rw [e]
    by_cases h : flagVal = []
    · simp [h]
    · simp [h]
  have e : lit "" = [] := by decide
  have e2 : lit "@" ≠ [] := by decide
  refine ⟨?_, ?_, ?_, ?_, e2⟩
  · show resolveSetting (flagValue args.subdomain (lit "@")) _ = _
    rw [key]
    cases args.subdomain with
    | none => simp only [flagValue, if_neg e2]
    | some v => simp only [flagValue]
  · show resolveSetting (flagValue args.key (lit "")) _ = _
    rw [key]
    cases args.key with
    | none => simp only [flagValue, e, if_true]
    | some v => simp only [flagValue]
  · show resolveSetting (flagValue args.email (lit "")) _ = _
    rw [key]
    cases args.email with
    | none => simp only [flagValue, e, if_true]
    | some v => simp only [flagValue]
  · show resolveSetting (flagValue args.domain (lit "")) _ = _
    rw [key]
    cases args.domain with
    | none => simp only [flagValue, e, if_true]
    | some v => simp only [flagValue]

end CloudflareDDNS
